import Mathlib

/-!
# lua-libmemcached: value codec, key adapter, operation layer, handle lifecycle

A shallow embedding of `src/libmemcached.c`.  The Lua stack is a list of values
(index 1 is the head, index -1 the last element), the registry callables and the
number/text conversions of the interpreter are fields of `LuaEnv`, and the
replies of the external cache client are arguments of each operation.  Every
operation yields a `Run`: the effects it performed, in order, and either the
values it returned or the error message it raised.

A `String` stands for a byte string, one `Char` per byte, so `String.length` is
the byte length.  The handle argument at index 1 is taken to pass
`luaL_checkudata`; the `mc_data` it points to is the argument `d`.  The texts of
the argument errors of `lauxlib` are shortened.
-/

namespace LuaMemcached

/-! ## Constants of the source -/

def FLAG_NONE : Nat := 0
def FLAG_BOOLEAN : Nat := 1
def FLAG_NUMBER : Nat := 2
def FLAG_ENCODED : Nat := 7

/-- Result codes of the client library that the source tells apart; every other
code is `OTHER`. -/
inductive memcached_return_t
  | MEMCACHED_SUCCESS
  | MEMCACHED_DATA_EXISTS
  | MEMCACHED_NOTSTORED
  | MEMCACHED_NOTFOUND
  | MEMCACHED_END
  | MEMCACHED_ERRNO
  | OTHER (code : Nat)
  deriving DecidableEq, Repr

open memcached_return_t

/-! ## Lua values and the environment -/

/-- A Lua value; tables, functions and userdata are references. -/
inductive LuaValue (Num : Type)
  | nil
  | boolean (b : Bool)
  | number (n : Num)
  | string (s : String)
  | table (ref : Nat)
  | function (ref : Nat)
  | userdata (ref : Nat)
  deriving DecidableEq, Repr

/-- The interpreter side the source relies on: number/text conversion, the
conversions of a number to the C integer types, calls of registry entries, and
the key bound of the client library. -/
structure LuaEnv (Num : Type) where
  /-- The number 0, what `lua_tonumber` yields for a value that is no number. -/
  zero : Num
  /-- Text rendering of a number (`lua_tolstring` on a number). -/
  number2str : Num → String
  /-- Text to number (`lua_tonumber` on a string); `none` when it does not parse. -/
  str2number : String → Option Num
  /-- C conversion of a number to an integer type (`time_t`, `uint32_t`, ...). -/
  toInteger : Num → Int
  /-- C conversion of a `uint64_t` to a number. -/
  ofUInt64 : Nat → Num
  /-- `lua_rawgeti(L, LUA_REGISTRYINDEX, ref)` followed by `lua_call(L, 1, 1)`. -/
  call : Nat → LuaValue Num → Except String (LuaValue Num)
  /-- The constant `MEMCACHED_MAX_KEY` of the client library. -/
  MEMCACHED_MAX_KEY : Nat

/-- The five store functions `l_put` is instantiated with. -/
inductive memcached_set_pt
  | memcached_set | memcached_add | memcached_replace | memcached_append | memcached_prepend
  deriving DecidableEq, Repr

/-- The two functions `l_incr_decr` is instantiated with. -/
inductive memcached_incr_pt
  | memcached_increment | memcached_decrement
  deriving DecidableEq, Repr

/-- A call into the client library, with the context pointer (`none` is NULL). -/
inductive ClientCall
  | memcached_free (mc : Option Nat)
  | memcached_last_error_message (mc : Option Nat)
  | memcached_behavior_get (mc : Option Nat) (flag : Int)
  | memcached_behavior_set (mc : Option Nat) (flag : Int) (data : Int)
  | memcached_get (mc : Option Nat) (key : String)
  | memcached_mget (mc : Option Nat) (keys : List (Option String))
  | memcached_fetch (mc : Option Nat)
  | store (f : memcached_set_pt) (mc : Option Nat) (key : String) (value : String)
      (expiration : Int) (flags : Nat)
  | memcached_delete (mc : Option Nat) (key : String) (expiration : Int)
  | memcached_touch (mc : Option Nat) (key : String) (expiration : Int)
  | incr_decr (f : memcached_incr_pt) (mc : Option Nat) (key : String) (offset : Int)
  | memcached_exist (mc : Option Nat) (key : String)
  | memcached_flush (mc : Option Nat) (expiration : Int)
  deriving DecidableEq, Repr

/-- An observable step of an operation. -/
inductive Effect (Num : Type)
  | call (ref : Nat) (arg : LuaValue Num)
  | unref (ref : Nat)
  | client (c : ClientCall)
  deriving DecidableEq, Repr

/-- The effects performed so far and the outcome: a value, or a raised error. -/
structure Run (Num : Type) (α : Type) where
  log : List (Effect Num)
  out : Except String α

namespace Run

variable {Num α β : Type}

def ret (a : α) : Run Num α := ⟨[], .ok a⟩

def raise (msg : String) : Run Num α := ⟨[], .error msg⟩

def emit (e : Effect Num) : Run Num Unit := ⟨[e], .ok ()⟩

def bind (r : Run Num α) (f : α → Run Num β) : Run Num β :=
  match r.out with
  | .error msg => ⟨r.log, .error msg⟩
  | .ok a => ⟨r.log ++ (f a).log, (f a).out⟩

/-- The client calls among the effects. -/
def clientCalls (r : Run Num α) : List ClientCall :=
  r.log.filterMap fun e => match e with
    | .client c => some c
    | _ => none

/-- The registry entries called, in order. -/
def calledRefs (r : Run Num α) : List Nat :=
  r.log.filterMap fun e => match e with
    | .call ref _ => some ref
    | _ => none

end Run

instance {Num : Type} : Monad (Run Num) where
  pure := Run.ret
  bind := Run.bind

/-- The handle: `mc` is the client context (`none` is NULL), the other fields
are registry references; `key_encode = 0` means no key-rewrite callable. -/
structure mc_data where
  mc : Option Nat
  key_encode : Nat
  encode : Nat
  decode : Nat
  deriving DecidableEq, Repr

/-- The Lua stack of a call: index 1 is the head. -/
abbrev Stack (Num : Type) := List (LuaValue Num)

variable {Num : Type}

/-- The value at a positive index; `none` is an index above the top. -/
def Stack.at (L : Stack Num) (idx : Nat) : Option (LuaValue Num) := L.get? (idx - 1)

/-- The value at index -1. -/
def Stack.top (L : Stack Num) : Option (LuaValue Num) := L.getLast?

/-- Registry call of one argument with one result, logged. -/
def lua_call (env : LuaEnv Num) (ref : Nat) (arg : LuaValue Num) : Run Num (LuaValue Num) :=
  ⟨[.call ref arg], env.call ref arg⟩

/-- Text of a value as `lua_tolstring` gives it: a string itself, a number
rendered, anything else NULL. -/
def lua_tolstring (env : LuaEnv Num) : Option (LuaValue Num) → Option String
  | some (.string s) => some s
  | some (.number n) => some (env.number2str n)
  | _ => none

/-- Number of a value as `lua_tonumber` gives it: 0 when there is none. -/
def lua_tonumber (env : LuaEnv Num) : Option (LuaValue Num) → Num
  | some (.number n) => n
  | some (.string s) => (env.str2number s).getD env.zero
  | _ => env.zero

/-- Truth of a value: only nil, false and an index above the top are false. -/
def lua_toboolean : Option (LuaValue Num) → Bool
  | none => false
  | some .nil => false
  | some (.boolean b) => b
  | some _ => true

/-- The text of an argument, or the argument error. -/
def luaL_checklstring (env : LuaEnv Num) (v : Option (LuaValue Num)) : Run Num String :=
  match lua_tolstring env v with
  | some s => Run.ret s
  | none => Run.raise "bad argument (string expected)"

/-- The number of an argument (a number, or a text that reads as one), or the
argument error. -/
def luaL_checknumber (env : LuaEnv Num) (v : Option (LuaValue Num)) : Run Num Num :=
  match v with
  | some (.number n) => Run.ret n
  | some (.string s) =>
    match env.str2number s with
    | some n => Run.ret n
    | none => Run.raise "bad argument (number expected)"
  | _ => Run.raise "bad argument (number expected)"

/-- As `luaL_checknumber`, with a default for an absent or nil argument. -/
def luaL_optnumber (env : LuaEnv Num) (v : Option (LuaValue Num)) (dflt : Num) : Run Num Num :=
  match v with
  | none => Run.ret dflt
  | some .nil => Run.ret dflt
  | some w => luaL_checknumber env (some w)

/-! ## Value decoding (`DECODE_VALUE`) -/

/-- The macro `DECODE_VALUE` on a non-NULL `value` of `value_length` bytes. -/
def DECODE_VALUE (env : LuaEnv Num) (d : mc_data) (flags : Nat) (value : String) :
    Run Num (LuaValue Num) :=
  if flags = FLAG_ENCODED then
    lua_call env d.decode (.string value)
  else if flags = FLAG_NUMBER then
    Run.ret (.number (lua_tonumber env (some (.string value))))
  else if flags = FLAG_BOOLEAN then
    Run.ret (.boolean (decide (value.data.head? = some '1')))
  else
    Run.ret (.string value)

/-! ## Key adapter (`l_key_encode`) -/

/-- The key for the client call.  `luaL_checklstring` leaves the argument on the
stack as a string, so the callable receives the key text; its result is popped
after its text is taken. -/
def l_key_encode (env : LuaEnv Num) (d : mc_data) (L : Stack Num) (narg : Nat) :
    Run Num String := do
  let key ← luaL_checklstring env (L.at narg)
  if key.length ≥ env.MEMCACHED_MAX_KEY then
    if d.key_encode ≠ 0 then
      let r ← lua_call env d.key_encode (.string key)
      luaL_checklstring env (some r)
    else
      Run.raise "key is too long"
  else
    pure key

/-! ## Errors and lifecycle -/

/-- The two message sources of `l_error`. -/
structure ErrText where
  strerror : String
  last_error : String

/-- Pushes nil and a message; returns 2. -/
def l_error (d : mc_data) (rc : memcached_return_t) (txt : ErrText) :
    Run Num (List (LuaValue Num)) :=
  if rc = MEMCACHED_ERRNO then
    Run.ret [.nil, .string txt.strerror]
  else do
    Run.emit (.client (.memcached_last_error_message d.mc))
    pure [.nil, .string txt.last_error]

/-- Frees the context, nulls it, and drops the references; yields the handle
as it is afterwards. -/
def l_free (d : mc_data) : Run Num mc_data := do
  Run.emit (.client (.memcached_free d.mc))
  if d.key_encode ≠ 0 then
    Run.emit (.unref d.key_encode)
  Run.emit (.unref d.encode)
  Run.emit (.unref d.decode)
  pure { d with mc := none }

/-- The finalizer: the handle afterwards and the (no) results. -/
def l_gc (d : mc_data) : Run Num (mc_data × List (LuaValue Num)) :=
  if d.mc ≠ none then do
    let d' ← l_free d
    pure (d', [])
  else
    pure (d, [])

def l_close (d : mc_data) : Run Num (mc_data × List (LuaValue Num)) :=
  if d.mc = none then
    pure (d, [.boolean false])
  else do
    let d' ← l_free d
    pure (d', [.boolean true])

/-! ## Operations -/

def l_get_behavior (env : LuaEnv Num) (d : mc_data) (L : Stack Num) (r : Nat) :
    Run Num (List (LuaValue Num)) := do
  let flag ← luaL_checknumber env (L.at 2)
  Run.emit (.client (.memcached_behavior_get d.mc (env.toInteger flag)))
  pure [.number (env.ofUInt64 r)]

def l_set_behavior (env : LuaEnv Num) (d : mc_data) (L : Stack Num)
    (rc : memcached_return_t) (txt : ErrText) : Run Num (List (LuaValue Num)) := do
  let flag ← luaL_checknumber env (L.at 2)
  let data ← luaL_checknumber env (L.at 3)
  Run.emit (.client (.memcached_behavior_set d.mc (env.toInteger flag) (env.toInteger data)))
  if rc = MEMCACHED_SUCCESS then pure [.boolean true] else l_error d rc txt

/-- What `memcached_get` and `memcached_fetch` hand back besides the key. -/
structure GetReply where
  value : Option String
  flags : Nat
  rc : memcached_return_t

def l_get (env : LuaEnv Num) (d : mc_data) (L : Stack Num) (reply : GetReply)
    (txt : ErrText) : Run Num (List (LuaValue Num)) := do
  let key ← l_key_encode env d L 2
  Run.emit (.client (.memcached_get d.mc key))
  match reply.value with
  | some value =>
    let v ← DECODE_VALUE env d reply.flags value
    pure [v]
  | none =>
    if reply.rc = MEMCACHED_SUCCESS then pure [.string ""]
    else if reply.rc = MEMCACHED_NOTFOUND then pure [.nil]
    else l_error d reply.rc txt

/-- The value part of `l_put`: the switch on the type of argument 3. -/
def l_put_value (env : LuaEnv Num) (d : mc_data) (L : Stack Num) : Run Num (Nat × String) :=
  match L.at 3 with
  | some (.table t) => do
    let r ← lua_call env d.encode (.table t)
    let value ← luaL_checklstring env (some r)
    pure (FLAG_ENCODED, value)
  | some (.number _) => pure (FLAG_NUMBER, (lua_tolstring env L.top).getD "")
  | some (.boolean _) => pure (FLAG_BOOLEAN, if lua_toboolean L.top then "1" else "0")
  | some (.string s) => pure (FLAG_NONE, s)
  | _ => Run.raise "unsuported value type"

/-- Encodes key and value and calls the store function `f`; `rc` is what the
client answers. -/
def l_put (env : LuaEnv Num) (d : mc_data) (L : Stack Num) (f : memcached_set_pt)
    (rc : memcached_return_t) : Run Num memcached_return_t := do
  let key ← l_key_encode env d L 2
  let expiration ← luaL_optnumber env (L.at 4) env.zero
  let fv ← l_put_value env d L
  Run.emit (.client (.store f d.mc key fv.2 (env.toInteger expiration) fv.1))
  pure rc

def l_set (env : LuaEnv Num) (d : mc_data) (L : Stack Num) (rc : memcached_return_t)
    (txt : ErrText) : Run Num (List (LuaValue Num)) := do
  let rc ← l_put env d L .memcached_set rc
  if rc = MEMCACHED_SUCCESS then pure [.boolean true] else l_error d rc txt

def l_add (env : LuaEnv Num) (d : mc_data) (L : Stack Num) (rc : memcached_return_t)
    (txt : ErrText) : Run Num (List (LuaValue Num)) := do
  let rc ← l_put env d L .memcached_add rc
  if rc = MEMCACHED_SUCCESS then pure [.boolean true]
  else if rc = MEMCACHED_DATA_EXISTS then pure [.nil]
  else l_error d rc txt

def l_replace (env : LuaEnv Num) (d : mc_data) (L : Stack Num) (rc : memcached_return_t)
    (txt : ErrText) : Run Num (List (LuaValue Num)) := do
  let rc ← l_put env d L .memcached_replace rc
  if rc = MEMCACHED_SUCCESS then pure [.boolean true]
  else if rc = MEMCACHED_NOTFOUND then pure [.nil]
  else l_error d rc txt

def l_append (env : LuaEnv Num) (d : mc_data) (L : Stack Num) (rc : memcached_return_t)
    (txt : ErrText) : Run Num (List (LuaValue Num)) := do
  let rc ← l_put env d L .memcached_append rc
  if rc = MEMCACHED_SUCCESS then pure [.boolean true]
  else if rc = MEMCACHED_NOTSTORED then pure [.nil]
  else l_error d rc txt

def l_prepend (env : LuaEnv Num) (d : mc_data) (L : Stack Num) (rc : memcached_return_t)
    (txt : ErrText) : Run Num (List (LuaValue Num)) := do
  let rc ← l_put env d L .memcached_prepend rc
  if rc = MEMCACHED_SUCCESS then pure [.boolean true]
  else if rc = MEMCACHED_NOTSTORED then pure [.nil]
  else l_error d rc txt

def l_delete (env : LuaEnv Num) (d : mc_data) (L : Stack Num) (rc : memcached_return_t)
    (txt : ErrText) : Run Num (List (LuaValue Num)) := do
  let key ← l_key_encode env d L 2
  let expiration ← luaL_optnumber env (L.at 3) env.zero
  Run.emit (.client (.memcached_delete d.mc key (env.toInteger expiration)))
  if rc = MEMCACHED_SUCCESS then pure [.boolean true]
  else if rc = MEMCACHED_NOTFOUND then pure [.nil]
  else l_error d rc txt

def l_touch (env : LuaEnv Num) (d : mc_data) (L : Stack Num) (rc : memcached_return_t)
    (txt : ErrText) : Run Num (List (LuaValue Num)) := do
  let key ← l_key_encode env d L 2
  let expiration ← luaL_checknumber env (L.at 3)
  Run.emit (.client (.memcached_touch d.mc key (env.toInteger expiration)))
  if rc = MEMCACHED_SUCCESS then pure [.boolean true]
  else if rc = MEMCACHED_NOTFOUND then pure [.nil]
  else l_error d rc txt

/-- Increment or decrement; `value` is what the client wrote to the out
parameter. -/
def l_incr_decr (env : LuaEnv Num) (d : mc_data) (L : Stack Num) (f : memcached_incr_pt)
    (value : Nat) (rc : memcached_return_t) (txt : ErrText) :
    Run Num (List (LuaValue Num)) := do
  let key ← l_key_encode env d L 2
  let offset ← luaL_optnumber env (L.at 3) (env.ofUInt64 1)
  Run.emit (.client (.incr_decr f d.mc key (env.toInteger offset)))
  if rc = MEMCACHED_SUCCESS then pure [.number (env.ofUInt64 value)]
  else if rc = MEMCACHED_NOTFOUND then pure [.nil]
  else l_error d rc txt

def l_incr (env : LuaEnv Num) (d : mc_data) (L : Stack Num) (value : Nat)
    (rc : memcached_return_t) (txt : ErrText) : Run Num (List (LuaValue Num)) :=
  l_incr_decr env d L .memcached_increment value rc txt

def l_decr (env : LuaEnv Num) (d : mc_data) (L : Stack Num) (value : Nat)
    (rc : memcached_return_t) (txt : ErrText) : Run Num (List (LuaValue Num)) :=
  l_incr_decr env d L .memcached_decrement value rc txt

def l_exist (env : LuaEnv Num) (d : mc_data) (L : Stack Num) (rc : memcached_return_t)
    (txt : ErrText) : Run Num (List (LuaValue Num)) := do
  let key ← l_key_encode env d L 2
  Run.emit (.client (.memcached_exist d.mc key))
  if rc = MEMCACHED_SUCCESS then pure [.boolean true]
  else if rc = MEMCACHED_NOTFOUND then pure [.nil]
  else l_error d rc txt

def l_flush (env : LuaEnv Num) (d : mc_data) (L : Stack Num) (rc : memcached_return_t)
    (txt : ErrText) : Run Num (List (LuaValue Num)) := do
  let expiration ← luaL_optnumber env (L.at 2) env.zero
  Run.emit (.client (.memcached_flush d.mc (env.toInteger expiration)))
  if rc = MEMCACHED_SUCCESS then pure [.boolean true] else l_error d rc txt

/-! ## Multi-get -/

/-- A table with string keys, as `l_get_multi` builds it: no key occurs twice
and no key is bound to nil. -/
abbrev LuaTable (Num : Type) := List (String × LuaValue Num)

/-- Storing with `lua_rawset`: the binding of `k` is replaced; storing nil
removes it. -/
def lua_rawset [DecidableEq Num] (t : LuaTable Num) (k : String) (v : LuaValue Num) :
    LuaTable Num :=
  if v = .nil then t.filter (fun e => e.1 ≠ k)
  else (k, v) :: t.filter (fun e => e.1 ≠ k)

/-- Reading a key: nil when the table has no binding for it. -/
def lua_rawget (t : LuaTable Num) (k : String) : LuaValue Num :=
  match t.find? (fun e => e.1 = k) with
  | some e => e.2
  | none => .nil

/-- One answer of `memcached_fetch`: the key, and what `memcached_get` also
hands back. -/
structure FetchReply where
  key : String
  value : Option String
  flags : Nat
  rc : memcached_return_t

/-- What `l_get_multi` returns: one new table, or the values of `l_error`. -/
inductive Returned (Num : Type)
  | table (t : LuaTable Num)
  | values (vs : List (LuaValue Num))

/-- The `for (;;)` loop of `l_get_multi` over the answers of the cursor, in
order.  `none`: the answers ran out before one with a code other than
`MEMCACHED_SUCCESS` came, so the loop has not left yet. -/
def fetch_loop [DecidableEq Num] (env : LuaEnv Num) (d : mc_data) :
    List FetchReply → LuaTable Num → Run Num (Option (LuaTable Num))
  | [], _ => Run.ret none
  | r :: rs, t =>
    Run.bind (Run.emit (.client (.memcached_fetch d.mc))) fun _ =>
      if r.rc ≠ MEMCACHED_SUCCESS then Run.ret (some t)
      else
        Run.bind
          (match r.value with
            | some value => DECODE_VALUE env d r.flags value
            | none => Run.ret (.string ""))
          fun v => fetch_loop env d rs (lua_rawset t r.key v)

/-- Multi-get: `arr` is the array part of the table at index 2, `rc` the answer
of `memcached_mget`, `cursor` the answers of `memcached_fetch`.  The failure of
`assert(2 == lua_gettop(L))` is a raised error here. -/
def l_get_multi [DecidableEq Num] (env : LuaEnv Num) (d : mc_data) (L : Stack Num)
    (arr : List (LuaValue Num)) (rc : memcached_return_t) (cursor : List FetchReply)
    (txt : ErrText) : Run Num (Option (Returned Num)) :=
  match L.at 2 with
  | some (.table _) =>
    let keys := arr.map fun v => lua_tolstring env (some v)
    if L.length ≠ 2 then Run.raise "assertion failed: 2 == lua_gettop(L)"
    else do
      Run.emit (.client (.memcached_mget d.mc keys))
      if rc ≠ MEMCACHED_SUCCESS then
        let vs ← l_error d rc txt
        pure (some (.values vs))
      else
        let t ← fetch_loop env d cursor []
        pure (t.map .table)
  | _ => Run.raise "bad argument #2 (table expected)"

/-! ## A concrete interpreter for evaluation

Numbers are exact decimals `m * 10 ^ e` (every IEEE double is one).  Rendering
follows the number format of Lua, `"%.14g"` (`LUAI_NUMBER_FMT`): 14 significant
digits, rounded half to even, trailing zeros dropped, exponent form when the
decimal exponent is below -4 or at least 14.  Reading accepts decimal numerals
(blanks, sign, digits, fraction, exponent) and reads them exactly; hexadecimal
numerals and the words for infinity and not-a-number, which `strtod` may also
read, are outside this model and are used nowhere below. -/

/-- The number `m * 10 ^ e`; normal when `m` does not end in 0, and `e = 0`
for `m = 0`. -/
structure Decimal where
  m : Int
  e : Int
  deriving DecidableEq, Repr

namespace Decimal

def normalizeAux : Nat → Int → Int → Decimal
  | 0, m, e => ⟨m, e⟩
  | fuel + 1, m, e => if m % 10 = 0 then normalizeAux fuel (m / 10) (e + 1) else ⟨m, e⟩

def normalize (m e : Int) : Decimal :=
  if m = 0 then ⟨0, 0⟩ else normalizeAux (Nat.toDigits 10 m.natAbs).length m e

def ofNat (n : Nat) : Decimal := normalize n 0

/-- Truncation toward zero. -/
def toInt (x : Decimal) : Int :=
  if 0 ≤ x.e then x.m * 10 ^ x.e.toNat
  else Int.sign x.m * ((x.m.natAbs / 10 ^ (-x.e).toNat : Nat) : Int)

def stripZeros (ds : List Char) : List Char :=
  (ds.reverse.dropWhile (fun c => c = '0')).reverse

/-- Quotient `a / p` rounded to nearest, ties to even. -/
def roundHalfEven (a p : Nat) : Nat :=
  let q := a / p
  let r := a % p
  if 2 * r > p ∨ (2 * r = p ∧ q % 2 = 1) then q + 1 else q

def expDigits (x : Int) : List Char :=
  (if x < 0 then ['-'] else ['+']) ++ (if x.natAbs < 10 then ['0'] else []) ++
    Nat.toDigits 10 x.natAbs

def withFraction (intPart frac : List Char) : List Char :=
  if frac = [] then intPart else intPart ++ '.' :: frac

/-- Rendering with `"%.14g"`. -/
def render (x : Decimal) : String :=
  if x.m = 0 then "0"
  else
    let a := x.m.natAbs
    let len := (Nat.toDigits 10 a).length
    let q := roundHalfEven a (10 ^ (len - 14))
    let sd := stripZeros (Nat.toDigits 10 q)
    let X : Int := (len : Int) - 1 + x.e + (if q ≥ 10 ^ 14 then 1 else 0)
    let body :=
      if X < -4 ∨ X ≥ 14 then withFraction (sd.take 1) (sd.drop 1) ++ 'e' :: expDigits X
      else if 0 ≤ X then
        withFraction (sd.take (X.toNat + 1) ++ List.replicate (X.toNat + 1 - sd.length) '0')
          (sd.drop (X.toNat + 1))
      else '0' :: '.' :: List.replicate ((-X).toNat - 1) '0' ++ sd
    String.mk ((if x.m < 0 then ['-'] else []) ++ body)

/-- The blanks of `isspace`: space, and tab to carriage return. -/
def isSpace (c : Char) : Bool :=
  c.toNat = 32 ∨ (9 ≤ c.toNat ∧ c.toNat ≤ 13)

def digitsValue (ds : List Char) : Nat :=
  ds.foldl (fun acc c => 10 * acc + (c.toNat - 48)) 0

/-- Sign in front of the rest: `true` is minus. -/
def takeSign : List Char → Bool × List Char
  | '-' :: cs => (true, cs)
  | '+' :: cs => (false, cs)
  | cs => (false, cs)

/-- The exponent part, when the text goes on with one, and what follows it. -/
def takeExponent : List Char → Int × List Char
  | c :: cs =>
    if c = 'e' ∨ c = 'E' then
      let sg := takeSign cs
      let ds := sg.2.takeWhile Char.isDigit
      if ds = [] then (0, c :: cs)
      else ((if sg.1 then -(digitsValue ds : Int) else digitsValue ds), sg.2.dropWhile Char.isDigit)
    else (0, c :: cs)
  | [] => (0, [])

/-- Reading a decimal numeral; `none` when the text is not one. -/
def parse (s : String) : Option Decimal :=
  let sg := takeSign (s.data.dropWhile isSpace)
  let ip := sg.2.takeWhile Char.isDigit
  let r1 := sg.2.dropWhile Char.isDigit
  let fp := match r1 with
    | '.' :: cs => cs.takeWhile Char.isDigit
    | _ => []
  let r2 := match r1 with
    | '.' :: cs => cs.dropWhile Char.isDigit
    | cs => cs
  if ip = [] ∧ fp = [] then none
  else
    let ex := takeExponent r2
    if ex.2.dropWhile isSpace ≠ [] then none
    else
      let mag : Int := digitsValue (ip ++ fp)
      some (normalize (if sg.1 then -mag else mag) (ex.1 - fp.length))

end Decimal

/-- The interpreter with decimal numbers, `"%.14g"` rendering, the key bound
251 of libmemcached, and the given registry. -/
def decimalEnv (call : Nat → LuaValue Decimal → Except String (LuaValue Decimal)) :
    LuaEnv Decimal where
  zero := ⟨0, 0⟩
  number2str := Decimal.render
  str2number := Decimal.parse
  toInteger := Decimal.toInt
  ofUInt64 := Decimal.ofNat
  call := call
  MEMCACHED_MAX_KEY := 251

/-! ## A sample registry and handle -/

/-- Registry entries for evaluation: 1 rewrites a key to its first 8 bytes,
2 encodes a table as the digits of its reference, 3 decodes such digits,
4 returns nil, 5 raises an error; every other entry is not callable. -/
def sampleRegistry : Nat → LuaValue Decimal → Except String (LuaValue Decimal)
  | 1, .string k => .ok (.string (String.mk (k.data.take 8)))
  | 2, .table t => .ok (.string (String.mk (Nat.toDigits 10 t)))
  | 3, .string s => .ok (.table (Decimal.digitsValue s.data))
  | 4, _ => .ok .nil
  | 5, _ => .error "decode failed"
  | _, _ => .error "attempt to call a nil value"

def sampleEnv : LuaEnv Decimal := decimalEnv sampleRegistry

/-- An Active handle with all three callables bound. -/
def sampleHandle : mc_data := ⟨some 1, 1, 2, 3⟩

/-- The handle userdata at index 1 of a method call. -/
def self : LuaValue Decimal := .userdata 0

def sampleText : ErrText := ⟨"Connection refused", "SERVER ERROR"⟩

/-- Cursor entries that carry the key "k" twice. -/
def sampleTwice : List FetchReply :=
  [⟨"k", some "a", 0, MEMCACHED_SUCCESS⟩, ⟨"k", some "1", 1, MEMCACHED_SUCCESS⟩]

/-- Cursor entries for K1 with the payload "a" and K3 with no payload. -/
def sampleHits : List FetchReply :=
  [⟨"K1", some "a", 0, MEMCACHED_SUCCESS⟩, ⟨"K3", none, 0, MEMCACHED_SUCCESS⟩]

/-- The values of the entries of `sampleHits`. -/
def sampleHitValues : List (LuaValue Decimal) := [.string "a", .string ""]

/-- A key of 251 bytes, the key bound of `decimalEnv`. -/
def sampleLongKey : String := String.mk (List.replicate 251 'a')

/-! ## The method table -/

/-- The methods of a handle that call the client (`state_methods` without
`close` and `set_encoding_key`). -/
inductive Operation
  | get | get_multi | set | add | replace | append | prepend | delete | touch
  | incr | decr | exist | flush | get_behavior | set_behavior
  deriving DecidableEq, Repr

/-- The answers of the client to the calls one operation can make. -/
structure Replies (Num : Type) where
  /-- Answer of `memcached_get`. -/
  get : GetReply
  /-- Result code of the call of the operation (of `memcached_mget` for multi-get). -/
  rc : memcached_return_t
  /-- The counter value written by increment and decrement. -/
  counter : Nat
  /-- Answer of `memcached_behavior_get`. -/
  behavior : Nat
  /-- Array part of the key table of multi-get. -/
  arr : List (LuaValue Num)
  /-- Answers of `memcached_fetch`. -/
  cursor : List FetchReply
  txt : ErrText

/-- The client answering NOTFOUND to a get and SUCCESS to everything else. -/
def sampleReplies : Replies Decimal :=
  ⟨⟨none, 0, MEMCACHED_NOTFOUND⟩, MEMCACHED_SUCCESS, 0, 0, [], [], sampleText⟩

/-- The results of a method as `Returned` values. -/
def returnValues (r : Run Num (List (LuaValue Num))) : Run Num (Option (Returned Num)) :=
  Run.bind r fun vs => Run.ret (some (.values vs))

/-- Dispatch of a method name to its C function. -/
def perform [DecidableEq Num] (op : Operation) (env : LuaEnv Num) (d : mc_data)
    (L : Stack Num) (rp : Replies Num) : Run Num (Option (Returned Num)) :=
  match op with
  | .get => returnValues (l_get env d L rp.get rp.txt)
  | .get_multi => l_get_multi env d L rp.arr rp.rc rp.cursor rp.txt
  | .set => returnValues (l_set env d L rp.rc rp.txt)
  | .add => returnValues (l_add env d L rp.rc rp.txt)
  | .replace => returnValues (l_replace env d L rp.rc rp.txt)
  | .append => returnValues (l_append env d L rp.rc rp.txt)
  | .prepend => returnValues (l_prepend env d L rp.rc rp.txt)
  | .delete => returnValues (l_delete env d L rp.rc rp.txt)
  | .touch => returnValues (l_touch env d L rp.rc rp.txt)
  | .incr => returnValues (l_incr env d L rp.counter rp.rc rp.txt)
  | .decr => returnValues (l_decr env d L rp.counter rp.rc rp.txt)
  | .exist => returnValues (l_exist env d L rp.rc rp.txt)
  | .flush => returnValues (l_flush env d L rp.rc rp.txt)
  | .get_behavior => returnValues (l_get_behavior env d L rp.behavior)
  | .set_behavior => returnValues (l_set_behavior env d L rp.rc rp.txt)

/-- The key of a client call that takes one. -/
def ClientCall.key? : ClientCall → Option String
  | .memcached_get _ k => some k
  | .store _ _ k _ _ _ => some k
  | .memcached_delete _ k _ => some k
  | .memcached_touch _ k _ => some k
  | .incr_decr _ _ k _ => some k
  | .memcached_exist _ k => some k
  | _ => none

/-- The methods that take a key at index 2. -/
def Operation.keyed : Operation → Bool
  | .get | .set | .add | .replace | .append | .prepend | .delete | .touch
  | .incr | .decr | .exist => true
  | _ => false

/-- The store function a store method passes to `l_put`. -/
def Operation.storeFn : Operation → Option memcached_set_pt
  | .set => some .memcached_set
  | .add => some .memcached_add
  | .replace => some .memcached_replace
  | .append => some .memcached_append
  | .prepend => some .memcached_prepend
  | _ => none

/-- The counter function `l_incr` and `l_decr` pass to `l_incr_decr`. -/
def Operation.incrFn : Operation → Option memcached_incr_pt
  | .incr => some .memcached_increment
  | .decr => some .memcached_decrement
  | _ => none

/-- Whether `c` is the client call of the keyed method `op` with the key `k`
on the context `mc`: `memcached_get` for get, the store function of a store
method, `memcached_delete`, `memcached_touch`, the counter function of incr and
decr, `memcached_exist`. -/
def Operation.sendsKey (op : Operation) (mc : Option Nat) (k : String) : ClientCall → Bool
  | .memcached_get m key => decide (op = .get) && decide (m = mc) && decide (key = k)
  | .store f m key _ _ _ =>
    decide (op.storeFn = some f) && decide (m = mc) && decide (key = k)
  | .memcached_delete m key _ => decide (op = .delete) && decide (m = mc) && decide (key = k)
  | .memcached_touch m key _ => decide (op = .touch) && decide (m = mc) && decide (key = k)
  | .incr_decr f m key _ =>
    decide (op.incrFn = some f) && decide (m = mc) && decide (key = k)
  | .memcached_exist m key => decide (op = .exist) && decide (m = mc) && decide (key = k)
  | _ => false

/-- Whether the run returned, rather than raised an error. -/
def Run.returns {α : Type} (r : Run Num α) : Bool :=
  match r.out with
  | .ok _ => true
  | .error _ => false

/-- Whether the argument checks that a keyed method makes between the key
adapter and its client call pass: the expiration and the value of a store
method, the expiration of delete and touch, the offset of incr and decr. -/
def Operation.argumentsPass (op : Operation) (env : LuaEnv Num) (d : mc_data) (L : Stack Num) :
    Bool :=
  match op with
  | .set | .add | .replace | .append | .prepend =>
    (luaL_optnumber env (L.at 4) env.zero).returns && (l_put_value env d L).returns
  | .delete => (luaL_optnumber env (L.at 3) env.zero).returns
  | .touch => (luaL_checknumber env (L.at 3)).returns
  | .incr | .decr => (luaL_optnumber env (L.at 3) (env.ofUInt64 1)).returns
  | _ => true

/-- Every keyed client call of the run carries the key `k`. -/
def Run.KeysAre {α : Type} (k : String) (r : Run Num α) : Prop :=
  ∀ c ∈ r.clientCalls, ∀ k', c.key? = some k' → k' = k

/-- The same client call with another context pointer. -/
def ClientCall.withContext (mc : Option Nat) : ClientCall → ClientCall
  | .memcached_free _ => .memcached_free mc
  | .memcached_last_error_message _ => .memcached_last_error_message mc
  | .memcached_behavior_get _ flag => .memcached_behavior_get mc flag
  | .memcached_behavior_set _ flag data => .memcached_behavior_set mc flag data
  | .memcached_get _ key => .memcached_get mc key
  | .memcached_mget _ keys => .memcached_mget mc keys
  | .memcached_fetch _ => .memcached_fetch mc
  | .store f _ key value expiration flags => .store f mc key value expiration flags
  | .memcached_delete _ key expiration => .memcached_delete mc key expiration
  | .memcached_touch _ key expiration => .memcached_touch mc key expiration
  | .incr_decr f _ key offset => .incr_decr f mc key offset
  | .memcached_exist _ key => .memcached_exist mc key
  | .memcached_flush _ expiration => .memcached_flush mc expiration

/-- The same effect with another context pointer in a client call. -/
def Effect.withContext (mc : Option Nat) : Effect Num → Effect Num
  | .client c => .client (c.withContext mc)
  | e => e

/-- The run `r'` does what `r` does, with the NULL context in its client calls. -/
def Run.NullContextOf {α : Type} (r' r : Run Num α) : Prop :=
  r'.log = r.log.map (Effect.withContext none) ∧ r'.out = r.out

/-! ## The outcome table of the operation layer, as the specification words it -/

/-- The methods whose result is decided by a result code of the client. -/
def Operation.hasResultCode : Operation → Bool
  | .get | .set | .add | .replace | .append | .prepend | .delete | .touch
  | .incr | .decr | .exist | .flush => true
  | _ => false

/-- The expected-absence code of a method, if it has one. -/
def Operation.softCode : Operation → Option memcached_return_t
  | .add => some MEMCACHED_DATA_EXISTS
  | .get | .replace | .delete | .touch | .exist | .incr | .decr => some MEMCACHED_NOTFOUND
  | .append | .prepend => some MEMCACHED_NOTSTORED
  | _ => none

/-- The result code a method looks at. -/
def Operation.resultCode (op : Operation) (rp : Replies Num) : memcached_return_t :=
  match op with
  | .get => rp.get.rc
  | _ => rp.rc

/-- The three-way outcome: on success true (the counter for incr and decr, the
empty text for a get without payload), on the soft code nil alone, on any other
code nil and a message. -/
def claimedResults (env : LuaEnv Num) (op : Operation) (rp : Replies Num) : List (LuaValue Num) :=
  let rc := op.resultCode rp
  if rc = MEMCACHED_SUCCESS then
    match op with
    | .incr | .decr => [.number (env.ofUInt64 rp.counter)]
    | .get => [.string ""]
    | _ => [.boolean true]
  else if some rc = op.softCode then [.nil]
  else [.nil, .string (if rc = MEMCACHED_ERRNO then rp.txt.strerror else rp.txt.last_error)]

/-! ## Release events -/

/-- A release attempt on a handle: a call of `close`, or a run of the finalizer
`__gc`. -/
inductive Release
  | close
  | gc
  deriving DecidableEq, Repr

def release (d : mc_data) : Release → Run Num (mc_data × List (LuaValue Num))
  | .close => l_close d
  | .gc => l_gc d

/-- The runs of a sequence of release attempts on one handle, each on the
handle as the one before left it. -/
def lifecycle (d : mc_data) : List Release → List (Run Num (mc_data × List (LuaValue Num)))
  | [] => []
  | ev :: evs =>
    release d ev :: lifecycle
      (match (release d ev : Run Num (mc_data × List (LuaValue Num))).out with
        | .ok r => r.1
        | .error _ => d) evs

/-- The effects of the one release: the context freed, each bound reference
dropped. -/
def releaseLog (d : mc_data) : List (Effect Num) :=
  .client (.memcached_free d.mc) ::
    ((if d.key_encode ≠ 0 then [.unref d.key_encode] else []) ++
      [.unref d.encode, .unref d.decode])

/-- What the releasing attempt returns: true from `close`, nothing from the
finalizer. -/
def Release.firstResults : Release → List (LuaValue Num)
  | .close => [.boolean true]
  | .gc => []

/-- What an attempt on a released handle returns: false from `close`, nothing
from the finalizer. -/
def Release.laterResults : Release → List (LuaValue Num)
  | .close => [.boolean false]
  | .gc => []

/-! ## The result of a drain, as the specification words it -/

/-- The value of one cursor entry: the decoded payload, or the empty text when
there is no payload; an error when the decode callable raises one. -/
def entryValue (env : LuaEnv Num) (d : mc_data) (r : FetchReply) : Except String (LuaValue Num) :=
  match r.value with
  | some value => (DECODE_VALUE env d r.flags value).out
  | none => .ok (.string "")

/-- Storing key/value pairs into a table, in order. -/
def storeAll [DecidableEq Num] (t : LuaTable Num) (kvs : List (String × LuaValue Num)) :
    LuaTable Num :=
  kvs.foldl (fun t kv => lua_rawset t kv.1 kv.2) t

/-- The value of the last pair with key `k`; nil when there is none. -/
def lastValue (kvs : List (String × LuaValue Num)) (k : String) : LuaValue Num :=
  match kvs.reverse.find? (fun kv => kv.1 = k) with
  | some kv => kv.2
  | none => .nil

/-! ## Basic facts about runs -/

section RunLemmas

variable {α β : Type}

@[simp] theorem Run.pure_def (a : α) : (pure a : Run Num α) = Run.ret a := rfl

@[simp] theorem Run.bind_def (r : Run Num α) (f : α → Run Num β) :
    (r >>= f) = Run.bind r f := rfl

@[simp] theorem Run.bind_ret (a : α) (f : α → Run Num β) : Run.bind (Run.ret a) f = f a := by
  simp [Run.bind, Run.ret]

@[simp] theorem Run.bind_raise (msg : String) (f : α → Run Num β) :
    Run.bind (Run.raise msg : Run Num α) f = Run.raise msg := by
  simp [Run.bind, Run.raise]

theorem Run.bind_ok (lg : List (Effect Num)) (a : α) (f : α → Run Num β) :
    Run.bind (⟨lg, .ok a⟩ : Run Num α) f = ⟨lg ++ (f a).log, (f a).out⟩ := by
  simp [Run.bind]

theorem Run.bind_error (lg : List (Effect Num)) (msg : String) (f : α → Run Num β) :
    Run.bind (⟨lg, .error msg⟩ : Run Num α) f = ⟨lg, .error msg⟩ := by
  simp [Run.bind]

@[simp] theorem Run.bind_emit (e : Effect Num) (f : Unit → Run Num β) :
    Run.bind (Run.emit e) f = ⟨e :: (f ()).log, (f ()).out⟩ := by
  simp [Run.bind, Run.emit]

end RunLemmas

/-! ## Value decoding -/

/-- C9: for a non-empty payload, decoding with a tag other than 7 raises no
error and performs no effect (the decode callable is not called); with tag 1
the result is the boolean "first byte is '1'"; with a tag outside 1, 2, 7 the
result is the payload as text, unchanged. -/
theorem decode_lenient (env : LuaEnv Num) (d : mc_data) (flags : Nat) (value : String)
    (hne : value ≠ "") :
    (flags ≠ FLAG_ENCODED →
      (DECODE_VALUE env d flags value).log = [] ∧
      (DECODE_VALUE env d flags value).calledRefs = [] ∧
      ∃ v, (DECODE_VALUE env d flags value).out = .ok v) ∧
    (flags = FLAG_BOOLEAN → ∃ c cs, value.data = c :: cs ∧
      DECODE_VALUE env d flags value = Run.ret (.boolean (decide (c = '1')))) ∧
    (flags ≠ FLAG_BOOLEAN → flags ≠ FLAG_NUMBER → flags ≠ FLAG_ENCODED →
      DECODE_VALUE env d flags value = Run.ret (.string value)) := by
  simp only [DECODE_VALUE, FLAG_ENCODED, FLAG_NUMBER, FLAG_BOOLEAN]
  refine ⟨?_, ?_, ?_⟩
  · intro h7
    by_cases h2 : flags = 2
    · simp [h7, h2, Run.ret, Run.calledRefs]
    · by_cases h1 : flags = 1
      · simp [h7, h2, h1, Run.ret, Run.calledRefs]
      · simp [h7, h2, h1, Run.ret, Run.calledRefs]
  · intro h1
    obtain ⟨cs⟩ := value
    cases cs with
    | nil => exact absurd rfl hne
    | cons c cs =>
      refine ⟨c, cs, rfl, ?_⟩
      subst h1
      simp
  · intro h1 h2 h7
    simp [h1, h2, h7]

/-- Witness of C9: tag 5 on the payload "1x". -/
theorem decode_lenient_witness :
    DECODE_VALUE sampleEnv sampleHandle 5 "1x" = Run.ret (.string "1x") :=
  (decode_lenient sampleEnv sampleHandle 5 "1x" (by decide)).2.2
    (by decide) (by decide) (by decide)

/-! ## Key adapter -/

section KeysAre

variable {α β : Type}

theorem Run.clientCalls_bind (r : Run Num α) (f : α → Run Num β) :
    (Run.bind r f).clientCalls =
      r.clientCalls ++ (match r.out with
        | .ok a => (f a).clientCalls
        | .error _ => []) := by
  obtain ⟨lg, out⟩ := r
  cases out <;> simp [Run.bind, Run.clientCalls]

theorem keysAre_bind {k : String} {r : Run Num α} {f : α → Run Num β}
    (hr : r.KeysAre k) (hf : ∀ a, (f a).KeysAre k) : (Run.bind r f).KeysAre k := by
  intro c hc k' hk'
  rw [Run.clientCalls_bind, List.mem_append] at hc
  rcases hc with hc | hc
  · exact hr c hc k' hk'
  · cases hout : r.out with
    | error e => simp [hout] at hc
    | ok a =>
      rw [hout] at hc
      exact hf a c hc k' hk'

theorem keysAre_of_log_nil {k : String} {r : Run Num α} (h : r.clientCalls = []) :
    r.KeysAre k := by
  intro c hc
  simp [h] at hc

theorem keysAre_ret (k : String) (a : α) : (Run.ret a : Run Num α).KeysAre k :=
  keysAre_of_log_nil (by simp [Run.ret, Run.clientCalls])

theorem keysAre_raise (k msg : String) : (Run.raise msg : Run Num α).KeysAre k :=
  keysAre_of_log_nil (by simp [Run.raise, Run.clientCalls])

theorem keysAre_emit (k : String) (c : ClientCall) (h : ∀ k', c.key? = some k' → k' = k) :
    (Run.emit (.client c) : Run Num Unit).KeysAre k := by
  intro c' hc'
  simp [Run.emit, Run.clientCalls] at hc'
  subst hc'
  exact h

theorem lua_call_clientCalls (env : LuaEnv Num) (ref : Nat) (arg : LuaValue Num) :
    (lua_call env ref arg).clientCalls = [] := by
  simp [lua_call, Run.clientCalls]

theorem luaL_checklstring_log (env : LuaEnv Num) (v : Option (LuaValue Num)) :
    (luaL_checklstring env v).log = [] := by
  unfold luaL_checklstring
  split <;> simp [Run.ret, Run.raise]

theorem luaL_checknumber_log (env : LuaEnv Num) (v : Option (LuaValue Num)) :
    (luaL_checknumber env v).log = [] := by
  unfold luaL_checknumber
  split
  · simp [Run.ret]
  · split <;> simp [Run.ret, Run.raise]
  · simp [Run.raise]

theorem luaL_optnumber_log (env : LuaEnv Num) (v : Option (LuaValue Num)) (dflt : Num) :
    (luaL_optnumber env v dflt).log = [] := by
  unfold luaL_optnumber
  split
  · simp [Run.ret]
  · simp [Run.ret]
  · exact luaL_checknumber_log env _

theorem keysAre_of_log {k : String} {r : Run Num α} (h : r.log = []) : r.KeysAre k :=
  keysAre_of_log_nil (by simp [Run.clientCalls, h])

theorem l_error_keysAre (k : String) (d : mc_data) (rc : memcached_return_t) (txt : ErrText) :
    (l_error d rc txt : Run Num _).KeysAre k := by
  unfold l_error
  split
  · exact keysAre_ret k _
  · exact keysAre_bind (keysAre_emit k _ (by simp [ClientCall.key?]))
      (fun _ => keysAre_ret k _)

theorem DECODE_VALUE_clientCalls (env : LuaEnv Num) (d : mc_data) (flags : Nat)
    (value : String) : (DECODE_VALUE env d flags value).clientCalls = [] := by
  unfold DECODE_VALUE
  split
  · exact lua_call_clientCalls env _ _
  · split
    · simp [Run.ret, Run.clientCalls]
    · split <;> simp [Run.ret, Run.clientCalls]

end KeysAre

section KeyedOperations

theorem l_key_encode_clientCalls (env : LuaEnv Num) (d : mc_data) (L : Stack Num) (narg : Nat) :
    (l_key_encode env d L narg).clientCalls = [] := by
  unfold l_key_encode
  simp only [Run.bind_def, Run.pure_def, Run.clientCalls_bind]
  have h1 : ∀ v, (luaL_checklstring env v).clientCalls = [] := fun v => by
    simp [Run.clientCalls, luaL_checklstring_log]
  rw [h1]
  split
  · split
    · split
      · rw [Run.clientCalls_bind, lua_call_clientCalls]
        split <;> simp [h1]
      · simp [Run.raise, Run.clientCalls]
    · simp [Run.ret, Run.clientCalls]
  · rfl

theorem keysAre_bind_key {α β : Type} {k : String} {r : Run Num α} {f : α → Run Num β}
    {lg : List (Effect Num)} {a : α} (hr : r = ⟨lg, .ok a⟩) (hc : r.clientCalls = [])
    (hf : (f a).KeysAre k) : (Run.bind r f).KeysAre k := by
  intro c hmem
  rw [Run.clientCalls_bind, hc] at hmem
  subst hr
  exact hf c (by simpa using hmem)

theorem l_put_value_clientCalls (env : LuaEnv Num) (d : mc_data) (L : Stack Num) :
    (l_put_value env d L).clientCalls = [] := by
  unfold l_put_value
  split
  · simp only [Run.bind_def, Run.pure_def, Run.clientCalls_bind, lua_call_clientCalls]
    split
    · simp only [Run.clientCalls, luaL_checklstring_log]
      split <;> simp [Run.ret]
    · simp
  all_goals simp [Run.ret, Run.raise, Run.clientCalls]

theorem l_put_keysAre (env : LuaEnv Num) (d : mc_data) (L : Stack Num) (f : memcached_set_pt)
    (rc : memcached_return_t) {lg : List (Effect Num)} {k : String}
    (h : l_key_encode env d L 2 = ⟨lg, .ok k⟩) : (l_put env d L f rc).KeysAre k := by
  unfold l_put
  simp only [Run.bind_def, Run.pure_def]
  refine keysAre_bind_key h (l_key_encode_clientCalls env d L 2) ?_
  refine keysAre_bind (keysAre_of_log (luaL_optnumber_log env _ _)) fun _ => ?_
  refine keysAre_bind (keysAre_of_log_nil (l_put_value_clientCalls env d L)) fun _ => ?_
  exact keysAre_bind (keysAre_emit k _ (by simp [ClientCall.key?])) fun _ =>
    keysAre_ret k _

variable [DecidableEq Num]

theorem perform_keysAre (op : Operation) (hop : op.keyed = true) (env : LuaEnv Num)
    (d : mc_data) (L : Stack Num) (rp : Replies Num) {lg : List (Effect Num)} {k : String}
    (h : l_key_encode env d L 2 = ⟨lg, .ok k⟩) : (perform op env d L rp).KeysAre k := by
  have hkc := l_key_encode_clientCalls env d L 2
  have hput := fun f rc => l_put_keysAre env d L f rc h
  cases op <;> simp only [Operation.keyed, Bool.false_eq_true] at hop <;>
    simp only [perform, returnValues, l_get, l_set, l_add, l_replace, l_append, l_prepend,
      l_delete, l_touch, l_incr, l_decr, l_incr_decr, l_exist, Run.bind_def, Run.pure_def] <;>
    refine keysAre_bind ?_ (fun _ => keysAre_ret k _) <;>
    first
      | (refine keysAre_bind (hput _ _) fun _ => ?_
         repeat (first
           | exact keysAre_ret k _
           | exact l_error_keysAre k _ _ _
           | split))
      | (refine keysAre_bind_key h hkc ?_
         repeat (first
           | exact keysAre_ret k _
           | exact l_error_keysAre k _ _ _
           | exact keysAre_of_log (luaL_optnumber_log env _ _)
           | exact keysAre_of_log (luaL_checknumber_log env _)
           | exact keysAre_of_log_nil (DECODE_VALUE_clientCalls env _ _ _)
           | exact keysAre_emit k _ (by simp [ClientCall.key?])
           | (refine keysAre_bind ?_ fun _ => ?_)
           | split))

theorem perform_key_error (op : Operation) (hop : op.keyed = true) (env : LuaEnv Num)
    (d : mc_data) (L : Stack Num) (rp : Replies Num) {lg : List (Effect Num)} {msg : String}
    (h : l_key_encode env d L 2 = ⟨lg, .error msg⟩) :
    perform op env d L rp = ⟨lg, .error msg⟩ := by
  cases op <;> simp only [Operation.keyed, Bool.false_eq_true] at hop <;>
    simp [perform, returnValues, l_get, l_set, l_add, l_replace, l_append, l_prepend, l_put,
      l_delete, l_touch, l_incr, l_decr, l_incr_decr, l_exist, h, Run.bind_error]

end KeyedOperations

/-! ## Value encoding and the round trip -/

theorem Run.clientCalls_of_log_nil {α : Type} {r : Run Num α} (h : r.log = []) :
    r.clientCalls = [] := by
  simp [Run.clientCalls, h]

/-- A store call made by `l_put` carries the tag and bytes of `l_put_value`. -/
theorem l_put_payload (env : LuaEnv Num) (d : mc_data) (L : Stack Num)
    (f f' : memcached_set_pt) (rc : memcached_return_t) (mc : Option Nat) (k bytes : String)
    (exp : Int) (tag : Nat)
    (h : ClientCall.store f mc k bytes exp tag ∈ (l_put env d L f' rc).clientCalls) :
    ∃ lg, l_put_value env d L = ⟨lg, .ok (tag, bytes)⟩ := by
  unfold l_put at h
  simp only [Run.bind_def, Run.pure_def, Run.clientCalls_bind, l_key_encode_clientCalls,
    Run.clientCalls_of_log_nil (luaL_optnumber_log env _ _), l_put_value_clientCalls,
    List.nil_append] at h
  split at h
  · split at h
    · split at h
      · rename_i fv hfv
        simp [Run.emit, Run.ret, Run.clientCalls] at h
        refine ⟨(l_put_value env d L).log, ?_⟩
        generalize l_put_value env d L = r at hfv
        obtain ⟨lg, out⟩ := r
        simp only at hfv
        subst hfv
        obtain ⟨t, b⟩ := fv
        simp only at h
        obtain ⟨-, -, -, hb, -, ht⟩ := h
        subst hb ht
        rfl
      · exact absurd h (List.not_mem_nil _)
    · exact absurd h (List.not_mem_nil _)
  · exact absurd h (List.not_mem_nil _)

theorem l_set_store_mem [DecidableEq Num] (env : LuaEnv Num) (d : mc_data) (L : Stack Num)
    (rc : memcached_return_t) (txt : ErrText) (c : ClientCall)
    (hc : c ≠ .memcached_last_error_message d.mc)
    (h : c ∈ (l_set env d L rc txt).clientCalls) :
    c ∈ (l_put env d L .memcached_set rc).clientCalls := by
  unfold l_set at h
  simp only [Run.bind_def, Run.pure_def, Run.clientCalls_bind, List.mem_append] at h
  rcases h with h | h
  · exact h
  · exfalso
    split at h
    · split at h
      · simp [Run.ret, Run.clientCalls] at h
      · unfold l_error at h
        split at h
        · simp [Run.ret, Run.clientCalls] at h
        · simp [Run.ret, Run.clientCalls] at h
          exact hc h
    · simp at h

/-- C1 (as amended): set without an expiration argument, then decode.  If
`set(key, V)` hands the pair (tag, bytes) to the client, where a number V is
one whose rendering reads back as V and a table V is one the decode callable
maps the encoded bytes back to, then `DECODE_VALUE` on (tag, bytes) returns V
itself. -/
theorem set_then_decode [DecidableEq Num] (env : LuaEnv Num) (d : mc_data)
    (slf key V : LuaValue Num) (rc : memcached_return_t) (txt : ErrText)
    (k bytes : String) (exp : Int) (tag : Nat)
    (hput : ClientCall.store .memcached_set d.mc k bytes exp tag ∈
      (l_set env d [slf, key, V] rc txt).clientCalls)
    (hnum : ∀ n, V = .number n → env.str2number (env.number2str n) = some n)
    (hinv : ∀ t r b, V = .table t → env.call d.encode (.table t) = .ok r →
      lua_tolstring env (some r) = some b → env.call d.decode (.string b) = .ok (.table t)) :
    (DECODE_VALUE env d tag bytes).out = .ok V := by
  obtain ⟨lg, hv⟩ := l_put_payload env d _ _ _ rc _ _ _ _ _
    (l_set_store_mem env d _ rc txt _ (by simp) hput)
  cases V with
  | nil => simp [l_put_value, Stack.at, Run.raise] at hv
  | function r => simp [l_put_value, Stack.at, Run.raise] at hv
  | userdata r => simp [l_put_value, Stack.at, Run.raise] at hv
  | boolean b =>
    simp only [l_put_value, Stack.at, Stack.top, Run.pure_def, Run.ret, lua_toboolean,
      List.get?, List.getLast?, FLAG_BOOLEAN] at hv
    cases b <;> simp at hv <;> obtain ⟨-, h1, h2⟩ := hv <;> subst h1 h2 <;>
      simp [DECODE_VALUE, FLAG_ENCODED, FLAG_NUMBER, FLAG_BOOLEAN, Run.ret]
  | number n =>
    simp [l_put_value, Stack.at, Stack.top, Run.ret, lua_tolstring, FLAG_NUMBER] at hv
    obtain ⟨-, h1, h2⟩ := hv
    subst h1 h2
    simp [DECODE_VALUE, FLAG_ENCODED, FLAG_NUMBER, Run.ret, lua_tonumber, hnum n rfl]
  | string s =>
    simp [l_put_value, Stack.at, Run.ret, FLAG_NONE] at hv
    obtain ⟨-, h1, h2⟩ := hv
    subst h1 h2
    simp [DECODE_VALUE, FLAG_ENCODED, FLAG_NUMBER, FLAG_BOOLEAN, Run.ret]
  | table t =>
    simp only [l_put_value, Stack.at, List.get?, Run.bind_def, Run.pure_def, lua_call,
      luaL_checklstring] at hv
    cases hcall : env.call d.encode (.table t) with
    | error e => simp [hcall, Run.bind] at hv
    | ok r =>
      cases hs : lua_tolstring env (some r) with
      | none => simp [hcall, hs, Run.bind, Run.raise] at hv
      | some b =>
        simp [hcall, hs, Run.bind, Run.ret, FLAG_ENCODED] at hv
        obtain ⟨-, h1, h2⟩ := hv
        subst h1 h2
        simp [DECODE_VALUE, FLAG_ENCODED, lua_call, hinv t r b rfl hcall hs]

/-- Witness of C1 (as amended): `set("n", 42)` hands over tag 2 with the bytes
"42", which decode to the number 42. -/
theorem set_then_decode_witness :
    (DECODE_VALUE sampleEnv sampleHandle 2 "42").out = .ok (.number ⟨42, 0⟩) :=
  set_then_decode sampleEnv sampleHandle self (.string "n") (.number ⟨42, 0⟩)
    .MEMCACHED_SUCCESS sampleText "n" "42" 0 2 (by decide)
    (by intro n h; cases h; decide) (by intro t r b h; cases h)

/-- Counterexample to C1 as stated: `set("n", 123456789012346)` hands over the
14-digit rendering "1.2345678901235e+14" with tag 2, and decoding that pair
yields the number 123456789012350, not the number that was set. -/
theorem set_then_decode_number_counterexample :
    (l_set sampleEnv sampleHandle [self, .string "n", .number ⟨123456789012346, 0⟩]
        .MEMCACHED_SUCCESS sampleText).clientCalls =
      [.store .memcached_set (some 1) "n" "1.2345678901235e+14" 0 2] ∧
    (DECODE_VALUE sampleEnv sampleHandle 2 "1.2345678901235e+14").out =
      .ok (.number ⟨12345678901235, 1⟩) ∧
    Decimal.toInt ⟨12345678901235, 1⟩ = 123456789012350 ∧
    (LuaValue.number ⟨12345678901235, 1⟩ : LuaValue Decimal) ≠
      .number ⟨123456789012346, 0⟩ := by
  refine ⟨by decide, rfl, by decide, by decide⟩

/-- C2 at the failing input: with an expiration argument the payload is taken
from the top of the stack.  `set("k", 42, 60)` hands over the bytes "60",
`set("k", false, 60)` the byte '1', and `set("k", true, nil)` the byte '0'. -/
theorem set_payload_with_expiration :
    (l_set sampleEnv sampleHandle [self, .string "k", .number ⟨42, 0⟩, .number ⟨6, 1⟩]
        .MEMCACHED_SUCCESS sampleText).clientCalls =
      [.store .memcached_set (some 1) "k" "60" 60 2] ∧
    (l_set sampleEnv sampleHandle [self, .string "k", .boolean false, .number ⟨6, 1⟩]
        .MEMCACHED_SUCCESS sampleText).clientCalls =
      [.store .memcached_set (some 1) "k" "1" 60 1] ∧
    (l_set sampleEnv sampleHandle [self, .string "k", .boolean true, .nil]
        .MEMCACHED_SUCCESS sampleText).clientCalls =
      [.store .memcached_set (some 1) "k" "0" 0 1] := by
  refine ⟨by decide, by decide, by decide⟩

/-- C8 (as amended): a payload with the NUMBER tag whose bytes do not read as a
number decodes, without error and without effect, to the number 0; `get`
returns that number as its one result and `get_multi` stores it under the key. -/
theorem decode_unparsable_number [DecidableEq Num] (env : LuaEnv Num) (d : mc_data)
    (value : String) (h : env.str2number value = none) :
    DECODE_VALUE env d FLAG_NUMBER value = ⟨[], .ok (.number env.zero)⟩ ∧
    (∀ (L : Stack Num) (lg : List (Effect Num)) (key : String) (rc : memcached_return_t)
        (txt : ErrText), l_key_encode env d L 2 = ⟨lg, .ok key⟩ →
      l_get env d L ⟨some value, FLAG_NUMBER, rc⟩ txt =
        ⟨lg ++ [.client (.memcached_get d.mc key)], .ok [.number env.zero]⟩) ∧
    (∀ (k : String) (stop : FetchReply) (rest : List FetchReply),
        stop.rc ≠ MEMCACHED_SUCCESS →
      (fetch_loop env d (⟨k, some value, FLAG_NUMBER, MEMCACHED_SUCCESS⟩ :: stop :: rest) []).out =
        .ok (some [(k, .number env.zero)])) := by
  have hd : DECODE_VALUE env d FLAG_NUMBER value = ⟨[], .ok (.number env.zero)⟩ := by
    simp [DECODE_VALUE, FLAG_NUMBER, FLAG_ENCODED, lua_tonumber, h, Run.ret]
  refine ⟨hd, ?_, ?_⟩
  · intro L lg key rc txt hk
    simp [l_get, hk, hd, Run.bind, Run.emit, Run.ret]
  · intro k stop rest hstop
    simp [fetch_loop, hd, hstop, Run.bind, Run.emit, Run.ret, lua_rawset]

/-- Witness of C8 (as amended): the bytes "abc" do not read as a number. -/
theorem decode_unparsable_number_witness :
    DECODE_VALUE sampleEnv sampleHandle FLAG_NUMBER "abc" = ⟨[], .ok (.number ⟨0, 0⟩)⟩ :=
  (decode_unparsable_number sampleEnv sampleHandle "abc" (by decide)).1

/-- Counterexample to C8 as stated: `get` on a NUMBER-tagged payload "abc"
raises no error and returns one result, the number 0. -/
theorem get_unparsable_number_counterexample :
    (l_get sampleEnv sampleHandle [self, .string "n"]
        ⟨some "abc", FLAG_NUMBER, .MEMCACHED_SUCCESS⟩ sampleText).out =
      .ok [.number ⟨0, 0⟩] ∧
    Decimal.parse "abc" = none := by
  refine ⟨rfl, by decide⟩

/-! ## Operations on a released handle -/

section NullContext

variable {α β : Type}

theorem nullContext_of_no_client (r : Run Num α) (h : r.clientCalls = []) :
    r.NullContextOf r := by
  refine ⟨?_, rfl⟩
  obtain ⟨lg, out⟩ := r
  simp only [Run.clientCalls] at h
  simp only
  induction lg with
  | nil => rfl
  | cons e es ih =>
    cases e with
    | client c => simp [List.filterMap_cons] at h
    | call ref arg =>
      simp only [List.filterMap_cons] at h
      simp [Effect.withContext, ← ih h]
    | unref ref =>
      simp only [List.filterMap_cons] at h
      simp [Effect.withContext, ← ih h]

theorem nullContext_of_log (r : Run Num α) (h : r.log = []) : r.NullContextOf r :=
  nullContext_of_no_client r (Run.clientCalls_of_log_nil h)

theorem nullContext_ret (a : α) : (Run.ret a : Run Num α).NullContextOf (Run.ret a) :=
  ⟨rfl, rfl⟩

theorem nullContext_raise (msg : String) :
    (Run.raise msg : Run Num α).NullContextOf (Run.raise msg) :=
  ⟨rfl, rfl⟩

theorem nullContext_emit (c₀ c : ClientCall) (h : c₀ = c.withContext none) :
    (Run.emit (.client c₀) : Run Num Unit).NullContextOf (Run.emit (.client c)) := by
  subst h
  exact ⟨rfl, rfl⟩

theorem nullContext_bind {r' r : Run Num α} {f' f : α → Run Num β}
    (hr : r'.NullContextOf r) (hf : ∀ a, (f' a).NullContextOf (f a)) :
    (Run.bind r' f').NullContextOf (Run.bind r f) := by
  obtain ⟨lg', out'⟩ := r'
  obtain ⟨lg, out⟩ := r
  obtain ⟨h1, h2⟩ := hr
  simp only at h1 h2
  subst h1 h2
  cases out' with
  | error e => exact ⟨by simp [Run.bind], by simp [Run.bind]⟩
  | ok a =>
    obtain ⟨h1, h2⟩ := hf a
    exact ⟨by simp [Run.bind, h1], by simp [Run.bind, h2]⟩

theorem l_error_nullContext (d : mc_data) (rc : memcached_return_t) (txt : ErrText) :
    (l_error { d with mc := none } rc txt : Run Num _).NullContextOf (l_error d rc txt) := by
  unfold l_error
  split
  · exact nullContext_ret _
  · exact nullContext_bind (nullContext_emit _ _ rfl) fun _ => nullContext_ret _

theorem DECODE_VALUE_nullContext (env : LuaEnv Num) (d : mc_data) (flags : Nat)
    (value : String) :
    (DECODE_VALUE env { d with mc := none } flags value).NullContextOf
      (DECODE_VALUE env d flags value) :=
  nullContext_of_no_client _ (DECODE_VALUE_clientCalls env d flags value)

theorem l_key_encode_nullContext (env : LuaEnv Num) (d : mc_data) (L : Stack Num) (narg : Nat) :
    (l_key_encode env { d with mc := none } L narg).NullContextOf
      (l_key_encode env d L narg) :=
  nullContext_of_no_client _ (l_key_encode_clientCalls env d L narg)

theorem l_put_value_nullContext (env : LuaEnv Num) (d : mc_data) (L : Stack Num) :
    (l_put_value env { d with mc := none } L).NullContextOf (l_put_value env d L) :=
  nullContext_of_no_client _ (l_put_value_clientCalls env d L)

theorem fetch_loop_nullContext [DecidableEq Num] (env : LuaEnv Num) (d : mc_data)
    (cursor : List FetchReply) (t : LuaTable Num) :
    (fetch_loop env { d with mc := none } cursor t).NullContextOf
      (fetch_loop env d cursor t) := by
  induction cursor generalizing t with
  | nil => exact nullContext_ret _
  | cons r rs ih =>
    unfold fetch_loop
    refine nullContext_bind (nullContext_emit _ _ rfl) fun _ => ?_
    split
    · exact nullContext_ret _
    · refine nullContext_bind ?_ fun v => ih _
      split
      · exact DECODE_VALUE_nullContext env d _ _
      · exact nullContext_ret _

end NullContext

section ReleasedHandle

theorem l_put_nullContext (env : LuaEnv Num) (d : mc_data) (L : Stack Num)
    (f : memcached_set_pt) (rc : memcached_return_t) :
    (l_put env { d with mc := none } L f rc).NullContextOf (l_put env d L f rc) := by
  unfold l_put
  simp only [Run.bind_def, Run.pure_def]
  refine nullContext_bind (l_key_encode_nullContext env d L 2) fun _ => ?_
  refine nullContext_bind (nullContext_of_log _ (luaL_optnumber_log env _ _))
    fun _ => ?_
  refine nullContext_bind (l_put_value_nullContext env d L) fun _ => ?_
  exact nullContext_bind (nullContext_emit _ _ rfl) fun _ =>
    nullContext_ret _

variable [DecidableEq Num]

theorem l_get_multi_nullContext (env : LuaEnv Num) (d : mc_data) (L : Stack Num)
    (arr : List (LuaValue Num)) (rc : memcached_return_t) (cursor : List FetchReply)
    (txt : ErrText) :
    (l_get_multi env { d with mc := none } L arr rc cursor txt).NullContextOf
      (l_get_multi env d L arr rc cursor txt) := by
  unfold l_get_multi
  simp only [Run.bind_def, Run.pure_def]
  split
  · split
    · exact nullContext_raise _
    · refine nullContext_bind (nullContext_emit _ _ rfl) fun _ => ?_
      split
      · exact nullContext_bind (l_error_nullContext d _ _) fun _ =>
          nullContext_ret _
      · exact nullContext_bind (fetch_loop_nullContext env d _ _) fun _ =>
          nullContext_ret _
  · exact nullContext_raise _

theorem perform_nullContext (op : Operation) (env : LuaEnv Num) (d : mc_data)
    (L : Stack Num) (rp : Replies Num) :
    (perform op env { d with mc := none } L rp).NullContextOf (perform op env d L rp) := by
  have hput := fun f rc => l_put_nullContext env d L f rc
  have hkey := l_key_encode_nullContext env d L 2
  have hmulti := l_get_multi_nullContext env d L rp.arr rp.rc rp.cursor rp.txt
  cases op <;>
    simp only [perform, returnValues, l_get, l_set, l_add, l_replace, l_append,
      l_prepend, l_delete, l_touch, l_incr, l_decr, l_incr_decr, l_exist, l_flush,
      l_get_behavior, l_set_behavior, Run.bind_def, Run.pure_def] <;>
    repeat (first
      | exact nullContext_ret _
      | exact nullContext_raise _
      | exact hput _ _
      | exact hkey
      | exact hmulti
      | exact l_error_nullContext d _ _
      | exact DECODE_VALUE_nullContext env d _ _
      | exact fetch_loop_nullContext env d _ _
      | exact nullContext_emit _ _ rfl
      | exact nullContext_of_log _ (luaL_optnumber_log env _ _)
      | exact nullContext_of_log _ (luaL_checknumber_log env _)
      | (refine nullContext_bind ?_ fun _ => ?_)
      | split)

/-- C3 (as amended): no method checks the client context.  On a released
handle (context NULL) every method returns or raises exactly what it does on
the same handle with a live context and the same client answers, and performs
the same effects in the same order, its client calls carrying the NULL
context. -/
theorem released_handle_not_checked (op : Operation) (env : LuaEnv Num) (d : mc_data)
    (L : Stack Num) (rp : Replies Num) (c : Nat) (hrel : d.mc = none) :
    (perform op env d L rp).out = (perform op env { d with mc := some c } L rp).out ∧
    (perform op env d L rp).log =
      (perform op env { d with mc := some c } L rp).log.map (Effect.withContext none) ∧
    (perform op env d L rp).clientCalls =
      (perform op env { d with mc := some c } L rp).clientCalls.map
        (ClientCall.withContext none) := by
  have h := perform_nullContext op env { d with mc := some c } L rp
  have hd : ({ ({ d with mc := some c } : mc_data) with mc := none } : mc_data) = d := by
    cases d
    simp only at hrel
    subst hrel
    rfl
  rw [hd] at h
  refine ⟨h.2, h.1, ?_⟩
  simp only [Run.clientCalls, h.1, List.filterMap_map]
  generalize (perform op env { d with mc := some c } L rp).log = lg
  induction lg with
  | nil => rfl
  | cons e es ih =>
    cases e <;> simp [List.filterMap_cons, Effect.withContext, ih]

/-- Witness of C3 (as amended): `get("k")` on the released sample handle calls
`memcached_get` with the NULL context. -/
theorem released_handle_not_checked_witness :
    (perform .get sampleEnv { sampleHandle with mc := none } [self, .string "k"]
        ⟨⟨none, 0, .MEMCACHED_NOTFOUND⟩, .MEMCACHED_SUCCESS, 0, 0, [], [], sampleText⟩).clientCalls =
      (perform .get sampleEnv { ({ sampleHandle with mc := none } : mc_data) with mc := some 1 }
        [self, .string "k"]
        ⟨⟨none, 0, .MEMCACHED_NOTFOUND⟩, .MEMCACHED_SUCCESS, 0, 0, [], [], sampleText⟩).clientCalls.map
        (ClientCall.withContext none) :=
  (released_handle_not_checked .get sampleEnv { sampleHandle with mc := none }
    [self, .string "k"]
    ⟨⟨none, 0, .MEMCACHED_NOTFOUND⟩, .MEMCACHED_SUCCESS, 0, 0, [], [], sampleText⟩ 1 rfl).2.2

/-- Counterexample to C3 as stated: after `close` returned true, `get("k")` and
`flush()` on the handle raise no error and call the client with the NULL
context. -/
theorem released_handle_counterexample :
    (l_close sampleHandle : Run Decimal _).out =
      .ok ({ sampleHandle with mc := none }, [.boolean true]) ∧
    (l_get sampleEnv { sampleHandle with mc := none } [self, .string "k"]
        ⟨none, 0, .MEMCACHED_NOTFOUND⟩ sampleText).clientCalls = [.memcached_get none "k"] ∧
    (l_get sampleEnv { sampleHandle with mc := none } [self, .string "k"]
        ⟨none, 0, .MEMCACHED_NOTFOUND⟩ sampleText).out = .ok [.nil] ∧
    (l_flush sampleEnv { sampleHandle with mc := none } [self]
        .MEMCACHED_SUCCESS sampleText).clientCalls = [.memcached_flush none 0] ∧
    (l_flush sampleEnv { sampleHandle with mc := none } [self]
        .MEMCACHED_SUCCESS sampleText).out = .ok [.boolean true] := by
  refine ⟨rfl, by decide, rfl, by decide, rfl⟩

end ReleasedHandle

/-! ## Result codes -/

section ResultCodes

variable {α β : Type}

/-- A run that calls the client only after a first part that calls nothing has
passed that first part. -/
theorem Run.bind_called {r : Run Num α} {f : α → Run Num β} (hr : r.clientCalls = [])
    (h : (Run.bind r f).clientCalls ≠ []) :
    ∃ a, r.out = .ok a ∧ (f a).clientCalls ≠ [] ∧ (Run.bind r f).out = (f a).out := by
  rw [Run.clientCalls_bind, hr, List.nil_append] at h
  obtain ⟨lg, out⟩ := r
  cases out with
  | error e => exact absurd rfl h
  | ok a => exact ⟨a, rfl, h, by simp [Run.bind]⟩

theorem Run.out_bind_emit (e : Effect Num) (f : Unit → Run Num β) :
    (Run.bind (Run.emit e) f).out = (f ()).out := by
  simp [Run.bind, Run.emit]

theorem l_error_out (d : mc_data) (rc : memcached_return_t) (txt : ErrText) :
    (l_error d rc txt : Run Num _).out =
      .ok [.nil, .string (if rc = MEMCACHED_ERRNO then txt.strerror else txt.last_error)] := by
  unfold l_error
  split <;> simp [Run.ret, Run.bind, Run.emit, *]

theorem returnValues_out (r : Run Num (List (LuaValue Num))) :
    (returnValues r).out = r.out.map fun vs => some (.values vs) := by
  obtain ⟨lg, out⟩ := r
  cases out <;> simp [returnValues, Run.bind, Run.ret, Except.map]

theorem returnValues_clientCalls (r : Run Num (List (LuaValue Num))) :
    (returnValues r).clientCalls = r.clientCalls := by
  obtain ⟨lg, out⟩ := r
  cases out <;> simp [returnValues, Run.bind, Run.ret, Run.clientCalls]

/-- Either `l_put` raised before calling the client, or it returns the code of
the client. -/
theorem l_put_cases (env : LuaEnv Num) (d : mc_data) (L : Stack Num) (f : memcached_set_pt)
    (rc : memcached_return_t) :
    (∃ msg, (l_put env d L f rc).out = .error msg ∧ (l_put env d L f rc).clientCalls = []) ∨
    (l_put env d L f rc).out = .ok rc := by
  have hk := l_key_encode_clientCalls env d L 2
  have hv := l_put_value_clientCalls env d L
  have ho := luaL_optnumber_log env (L.at 4) env.zero
  unfold l_put
  simp only [Run.bind_def, Run.pure_def]
  generalize l_key_encode env d L 2 = rk at *
  generalize l_put_value env d L = rv at *
  generalize luaL_optnumber env (L.at 4) env.zero = ro at *
  obtain ⟨lk, ok⟩ := rk
  obtain ⟨lv, ov⟩ := rv
  obtain ⟨lo, oo⟩ := ro
  simp only at ho
  subst ho
  simp only [Run.clientCalls] at hk hv
  cases ok <;> cases oo <;> cases ov <;>
    simp [Run.bind, Run.emit, Run.ret, Run.clientCalls, hk, hv]

/-- The outcome of a store method from the outcome of `l_put`. -/
theorem put_method_out {r : Run Num memcached_return_t} {g : memcached_return_t → Run Num β}
    {rc : memcached_return_t}
    (hr : (∃ msg, r.out = .error msg ∧ r.clientCalls = []) ∨ r.out = .ok rc)
    (h : (Run.bind r g).clientCalls ≠ []) : (Run.bind r g).out = (g rc).out := by
  obtain ⟨lg, out⟩ := r
  rcases hr with ⟨msg, hm, hc⟩ | hok
  · exfalso
    apply h
    simp only at hm
    subst hm
    rw [Run.clientCalls_bind, hc]
    rfl
  · simp only at hok
    subst hok
    simp [Run.bind]

/-- The results after the client call of a method with a soft code. -/
theorem outcome_out_soft (d : mc_data) (rc soft : memcached_return_t)
    (txt : ErrText) (succ : List (LuaValue Num)) :
    (if rc = MEMCACHED_SUCCESS then Run.ret succ
      else if rc = soft then Run.ret [.nil]
      else l_error d rc txt : Run Num _).out =
      .ok (if rc = MEMCACHED_SUCCESS then succ
        else if rc = soft then [.nil]
        else [.nil, .string (if rc = MEMCACHED_ERRNO then txt.strerror else txt.last_error)]) := by
  split
  · rfl
  · split
    · rfl
    · exact l_error_out d rc txt

/-- The results after the client call of a method without a soft code. -/
theorem outcome_out_hard (d : mc_data) (rc : memcached_return_t)
    (txt : ErrText) (succ : List (LuaValue Num)) :
    (if rc = MEMCACHED_SUCCESS then Run.ret succ else l_error d rc txt : Run Num _).out =
      .ok (if rc = MEMCACHED_SUCCESS then succ
        else [.nil, .string (if rc = MEMCACHED_ERRNO then txt.strerror else txt.last_error)]) := by
  split
  · rfl
  · exact l_error_out d rc txt

end ResultCodes

/-! ## The keyed client call -/

section KeyedCall

variable {α β : Type}

/-- A run that returns has passed its first part; when that part calls nothing
on the client, the client calls are those of what follows. -/
theorem Run.bind_returns {r : Run Num α} {f : α → Run Num β} {b : β}
    (h : (Run.bind r f).out = .ok b) (hr : r.clientCalls = []) :
    ∃ a, r.out = .ok a ∧ (f a).out = .ok b ∧
      (Run.bind r f).clientCalls = (f a).clientCalls := by
  rw [Run.clientCalls_bind, hr, List.nil_append]
  obtain ⟨lg, out⟩ := r
  cases out with
  | error e => simp [Run.bind] at h
  | ok a => exact ⟨a, rfl, by simpa [Run.bind] using h, rfl⟩

theorem Run.clientCalls_bind_emit (c : ClientCall) (f : Unit → Run Num β) :
    (Run.bind (Run.emit (.client c)) f).clientCalls = c :: (f ()).clientCalls := by
  simp [Run.bind, Run.emit, Run.clientCalls]

theorem l_error_unkeyed (d : mc_data) (rc : memcached_return_t) (txt : ErrText) :
    ∀ c ∈ (l_error d rc txt : Run Num _).clientCalls, c.key? = none := by
  intro c hc
  unfold l_error at hc
  split at hc
  · simp [Run.ret, Run.clientCalls] at hc
  · simp [Run.bind, Run.emit, Run.ret, Run.clientCalls] at hc
    subst hc
    rfl

/-- After the client call of a method with a soft code no keyed call follows. -/
theorem outcome_unkeyed_soft (d : mc_data) (rc soft : memcached_return_t) (txt : ErrText)
    (succ : List (LuaValue Num)) :
    ∀ c ∈ (if rc = MEMCACHED_SUCCESS then Run.ret succ
      else if rc = soft then Run.ret [.nil]
      else l_error d rc txt : Run Num _).clientCalls, c.key? = none := by
  intro c hc
  split at hc
  · simp [Run.ret, Run.clientCalls] at hc
  · split at hc
    · simp [Run.ret, Run.clientCalls] at hc
    · exact l_error_unkeyed d rc txt c hc

/-- After the client call of a method without a soft code no keyed call
follows. -/
theorem outcome_unkeyed_hard (d : mc_data) (rc : memcached_return_t) (txt : ErrText)
    (succ : List (LuaValue Num)) :
    ∀ c ∈ (if rc = MEMCACHED_SUCCESS then Run.ret succ else l_error d rc txt :
      Run Num _).clientCalls, c.key? = none := by
  intro c hc
  split at hc
  · simp [Run.ret, Run.clientCalls] at hc
  · exact l_error_unkeyed d rc txt c hc

/-- When the adapter gives `k` and `l_put` returns, it has made one client call,
the store function on `k`. -/
theorem l_put_returns (env : LuaEnv Num) (d : mc_data) (L : Stack Num) (f : memcached_set_pt)
    (rc a : memcached_return_t) {lg : List (Effect Num)} {k : String}
    (hk : l_key_encode env d L 2 = ⟨lg, .ok k⟩) (h : (l_put env d L f rc).out = .ok a) :
    ∃ value expiration flags,
      (l_put env d L f rc).clientCalls = [.store f d.mc k value expiration flags] := by
  have hkc := l_key_encode_clientCalls env d L 2
  unfold l_put at h ⊢
  simp only [Run.bind_def, Run.pure_def] at h ⊢
  obtain ⟨k₀, hk₀, h, hc⟩ := Run.bind_returns h hkc
  rw [hk] at hk₀
  cases hk₀
  rw [hc]
  obtain ⟨e, -, h, hc⟩ :=
    Run.bind_returns h (Run.clientCalls_of_log_nil (luaL_optnumber_log env _ _))
  rw [hc]
  obtain ⟨fv, -, h, hc⟩ := Run.bind_returns h (l_put_value_clientCalls env d L)
  rw [hc, Run.clientCalls_bind_emit]
  exact ⟨fv.2, env.toInteger e, fv.1, by simp [Run.ret, Run.clientCalls]⟩

/-- A run that returns has passed its first part, and its client calls are
those of the first part and then those of what follows. -/
theorem Run.bind_returns_calls {r : Run Num α} {f : α → Run Num β} {b : β}
    (h : (Run.bind r f).out = .ok b) :
    ∃ a, r.out = .ok a ∧ (f a).out = .ok b ∧
      (Run.bind r f).clientCalls = r.clientCalls ++ (f a).clientCalls := by
  rw [Run.clientCalls_bind]
  obtain ⟨lg, out⟩ := r
  cases out with
  | error e => simp [Run.bind] at h
  | ok a => exact ⟨a, rfl, by simpa [Run.bind] using h, rfl⟩

/-- The shape every keyed method has after the adapter: local checks that call
nothing on the client, then the client call, then the outcome. -/
theorem sends_after_checks {γ : Type} (op : Operation) (mc : Option Nat) (k : String)
    (checks : Run Num γ) (call : γ → ClientCall) (tail : γ → Run Num β) (b : β)
    (hchecks : checks.clientCalls = [])
    (hcall : ∀ g, checks.out = .ok g → op.sendsKey mc k (call g) = true)
    (htail : ∀ g, ∀ c ∈ (tail g).clientCalls, c.key? = none)
    (h : (Run.bind checks fun g => Run.bind (Run.emit (.client (call g))) fun _ => tail g).out =
      .ok b) :
    ∃ c rest,
      (Run.bind checks fun g =>
        Run.bind (Run.emit (.client (call g))) fun _ => tail g).clientCalls = c :: rest ∧
      op.sendsKey mc k c = true ∧ ∀ c' ∈ rest, c'.key? = none := by
  obtain ⟨g, hg, -, hc⟩ := Run.bind_returns h hchecks
  rw [hc, Run.clientCalls_bind_emit]
  exact ⟨call g, (tail g).clientCalls, rfl, hcall g hg, htail g⟩

theorem Except.ok_of_map_ok {ε γ δ : Type} {f : γ → δ} {x : Except ε γ} {b : δ}
    (h : Except.map f x = .ok b) : ∃ a, x = .ok a := by
  cases x with
  | error e => simp [Except.map] at h
  | ok a => exact ⟨a, rfl⟩

end KeyedCall

/-- When the adapter gives the key `k` and a keyed method returns, the method
has made its client call with `k`, first among its client calls, and no other
keyed call. -/
theorem perform_sends [DecidableEq Num] (op : Operation) (hop : op.keyed = true)
    (env : LuaEnv Num) (d : mc_data) (L : Stack Num) (rp : Replies Num)
    {lg : List (Effect Num)} {k : String} (hk : l_key_encode env d L 2 = ⟨lg, .ok k⟩)
    {res : Option (Returned Num)} (hret : (perform op env d L rp).out = .ok res) :
    ∃ c rest, (perform op env d L rp).clientCalls = c :: rest ∧
      op.sendsKey d.mc k c = true ∧ ∀ c' ∈ rest, c'.key? = none := by
  have hkc := l_key_encode_clientCalls env d L 2
  have hkc' : (⟨lg, .ok k⟩ : Run Num String).clientCalls = [] := hk ▸ hkc
  cases op <;> simp only [Operation.keyed, Bool.false_eq_true] at hop <;>
    simp only [perform, returnValues_out, returnValues_clientCalls] at hret ⊢
  case get =>
    obtain ⟨vs, hvs⟩ := Except.ok_of_map_ok hret
    unfold l_get at hvs ⊢
    simp only [Run.bind_def, Run.pure_def] at hvs ⊢
    refine sends_after_checks .get d.mc k _ (fun key => .memcached_get d.mc key) _ vs hkc
      (fun g hg => ?_) (fun g c hc => ?_) hvs
    · rw [hk] at hg
      cases hg
      simp [Operation.sendsKey]
    · split at hc
      · rw [Run.clientCalls_bind, DECODE_VALUE_clientCalls] at hc
        split at hc <;> simp [Run.ret, Run.clientCalls] at hc
      · exact outcome_unkeyed_soft d _ _ _ _ c hc
  case exist =>
    obtain ⟨vs, hvs⟩ := Except.ok_of_map_ok hret
    unfold l_exist at hvs ⊢
    simp only [Run.bind_def, Run.pure_def] at hvs ⊢
    refine sends_after_checks .exist d.mc k _ (fun key => .memcached_exist d.mc key) _ vs hkc
      (fun g hg => ?_) (fun g c hc => outcome_unkeyed_soft d _ _ _ _ c hc) hvs
    rw [hk] at hg
    cases hg
    simp [Operation.sendsKey]
  case delete =>
    obtain ⟨vs, hvs⟩ := Except.ok_of_map_ok hret
    unfold l_delete at hvs ⊢
    simp only [Run.bind_def, Run.pure_def] at hvs ⊢
    obtain ⟨k₀, hk₀, hvs, hc⟩ := Run.bind_returns hvs hkc
    rw [hk] at hk₀
    cases hk₀
    rw [hc]
    exact sends_after_checks .delete d.mc k _
      (fun e => .memcached_delete d.mc k (env.toInteger e)) _ vs
      (Run.clientCalls_of_log_nil (luaL_optnumber_log env _ _))
      (fun g _ => by simp [Operation.sendsKey])
      (fun g c hc => outcome_unkeyed_soft d _ _ _ _ c hc) hvs
  case touch =>
    obtain ⟨vs, hvs⟩ := Except.ok_of_map_ok hret
    unfold l_touch at hvs ⊢
    simp only [Run.bind_def, Run.pure_def] at hvs ⊢
    obtain ⟨k₀, hk₀, hvs, hc⟩ := Run.bind_returns hvs hkc
    rw [hk] at hk₀
    cases hk₀
    rw [hc]
    exact sends_after_checks .touch d.mc k _
      (fun e => .memcached_touch d.mc k (env.toInteger e)) _ vs
      (Run.clientCalls_of_log_nil (luaL_checknumber_log env _))
      (fun g _ => by simp [Operation.sendsKey])
      (fun g c hc => outcome_unkeyed_soft d _ _ _ _ c hc) hvs
  case incr =>
    obtain ⟨vs, hvs⟩ := Except.ok_of_map_ok hret
    unfold l_incr l_incr_decr at hvs ⊢
    simp only [Run.bind_def, Run.pure_def] at hvs ⊢
    obtain ⟨k₀, hk₀, hvs, hc⟩ := Run.bind_returns hvs hkc
    rw [hk] at hk₀
    cases hk₀
    rw [hc]
    exact sends_after_checks .incr d.mc k _
      (fun e => .incr_decr .memcached_increment d.mc k (env.toInteger e)) _ vs
      (Run.clientCalls_of_log_nil (luaL_optnumber_log env _ _))
      (fun g _ => by simp [Operation.sendsKey, Operation.incrFn])
      (fun g c hc => outcome_unkeyed_soft d _ _ _ _ c hc) hvs
  case decr =>
    obtain ⟨vs, hvs⟩ := Except.ok_of_map_ok hret
    unfold l_decr l_incr_decr at hvs ⊢
    simp only [Run.bind_def, Run.pure_def] at hvs ⊢
    obtain ⟨k₀, hk₀, hvs, hc⟩ := Run.bind_returns hvs hkc
    rw [hk] at hk₀
    cases hk₀
    rw [hc]
    exact sends_after_checks .decr d.mc k _
      (fun e => .incr_decr .memcached_decrement d.mc k (env.toInteger e)) _ vs
      (Run.clientCalls_of_log_nil (luaL_optnumber_log env _ _))
      (fun g _ => by simp [Operation.sendsKey, Operation.incrFn])
      (fun g c hc => outcome_unkeyed_soft d _ _ _ _ c hc) hvs
  case set =>
    obtain ⟨vs, hvs⟩ := Except.ok_of_map_ok hret
    unfold l_set at hvs ⊢
    simp only [Run.bind_def, Run.pure_def] at hvs ⊢
    obtain ⟨a, ha, -, hc⟩ := Run.bind_returns_calls hvs
    obtain ⟨value, expiration, flags, hput⟩ := l_put_returns env d L _ rp.rc a hk ha
    rw [hc, hput]
    exact ⟨_, _, rfl, by simp [Operation.sendsKey, Operation.storeFn],
      fun c hc => outcome_unkeyed_hard d _ _ _ c hc⟩
  all_goals
    obtain ⟨vs, hvs⟩ := Except.ok_of_map_ok hret
    simp only [l_add, l_replace, l_append, l_prepend, Run.bind_def, Run.pure_def] at hvs ⊢
    obtain ⟨a, ha, -, hc⟩ := Run.bind_returns_calls hvs
    obtain ⟨value, expiration, flags, hput⟩ := l_put_returns env d L _ rp.rc a hk ha
    rw [hc, hput]
    exact ⟨_, _, rfl, by simp [Operation.sendsKey, Operation.storeFn],
      fun c hc => outcome_unkeyed_soft d _ _ _ _ c hc⟩


section KeyedCallChecked

variable {α β : Type}

theorem Run.ok_of_returns {r : Run Num α} (h : r.returns = true) : ∃ a, r.out = .ok a := by
  unfold Run.returns at h
  split at h
  · rename_i a ha
    exact ⟨a, ha⟩
  · cases h

theorem Run.clientCalls_bind_ok {r : Run Num α} {f : α → Run Num β} {a : α}
    (h : r.out = .ok a) : (Run.bind r f).clientCalls = r.clientCalls ++ (f a).clientCalls := by
  rw [Run.clientCalls_bind, h]

/-- When the adapter gives `k` and the expiration and value pass, `l_put` makes
one client call, the store function on `k`, and returns the code of the
client. -/
theorem l_put_checked (env : LuaEnv Num) (d : mc_data) (L : Stack Num) (f : memcached_set_pt)
    (rc : memcached_return_t) {lg : List (Effect Num)} {k : String}
    (hk : l_key_encode env d L 2 = ⟨lg, .ok k⟩)
    (he : (luaL_optnumber env (L.at 4) env.zero).returns = true)
    (hv : (l_put_value env d L).returns = true) :
    (l_put env d L f rc).out = .ok rc ∧
    ∃ value expiration flags,
      (l_put env d L f rc).clientCalls = [.store f d.mc k value expiration flags] := by
  have hkc := l_key_encode_clientCalls env d L 2
  have hec := Run.clientCalls_of_log_nil (luaL_optnumber_log env (L.at 4) env.zero)
  have hvc := l_put_value_clientCalls env d L
  obtain ⟨e, he⟩ := Run.ok_of_returns he
  obtain ⟨fv, hv⟩ := Run.ok_of_returns hv
  have hko : (l_key_encode env d L 2).out = .ok k := by rw [hk]
  unfold l_put
  simp only [Run.bind_def, Run.pure_def]
  refine ⟨?_, fv.2, env.toInteger e, fv.1, ?_⟩
  · simp [Run.bind, hko, he, hv, Run.emit, Run.ret]
  · rw [Run.clientCalls_bind_ok hko, hkc, Run.clientCalls_bind_ok he, hec,
      Run.clientCalls_bind_ok hv, hvc, Run.clientCalls_bind_emit]
    simp [Run.ret, Run.clientCalls]

/-- The client calls of local checks that pass, the client call, and the
outcome. -/
theorem calls_after_checks {γ : Type} (checks : Run Num γ) (call : γ → ClientCall)
    (tail : γ → Run Num β) (g : γ) (hchecks : checks.clientCalls = [])
    (hg : checks.out = .ok g) :
    (Run.bind checks fun g => Run.bind (Run.emit (.client (call g))) fun _ => tail g).clientCalls =
      call g :: (tail g).clientCalls := by
  rw [Run.clientCalls_bind_ok hg, hchecks, Run.clientCalls_bind_emit]
  rfl

end KeyedCallChecked

/-- When the adapter gives the key `k` and the other argument checks of a keyed
method pass, the method makes its client call with `k`, first among its client
calls, and no other keyed call. -/
theorem perform_sends_checked [DecidableEq Num] (op : Operation) (hop : op.keyed = true)
    (env : LuaEnv Num) (d : mc_data) (L : Stack Num) (rp : Replies Num)
    {lg : List (Effect Num)} {k : String} (hk : l_key_encode env d L 2 = ⟨lg, .ok k⟩)
    (hargs : op.argumentsPass env d L = true) :
    ∃ c rest, (perform op env d L rp).clientCalls = c :: rest ∧
      op.sendsKey d.mc k c = true ∧ ∀ c' ∈ rest, c'.key? = none := by
  have hkc := l_key_encode_clientCalls env d L 2
  have hko : (l_key_encode env d L 2).out = .ok k := by rw [hk]
  cases op <;> simp only [Operation.keyed, Bool.false_eq_true] at hop <;>
    simp only [perform, returnValues_clientCalls, Operation.argumentsPass,
      Bool.and_eq_true] at hargs ⊢
  case get =>
    unfold l_get
    simp only [Run.bind_def, Run.pure_def]
    rw [calls_after_checks _ (fun key => ClientCall.memcached_get d.mc key) _ k hkc hko]
    refine ⟨_, _, rfl, by simp [Operation.sendsKey], fun c hc => ?_⟩
    split at hc
    · rw [Run.clientCalls_bind, DECODE_VALUE_clientCalls] at hc
      split at hc <;> simp [Run.ret, Run.clientCalls] at hc
    · exact outcome_unkeyed_soft d _ _ _ _ c hc
  case exist =>
    unfold l_exist
    simp only [Run.bind_def, Run.pure_def]
    rw [calls_after_checks _ (fun key => ClientCall.memcached_exist d.mc key) _ k hkc hko]
    exact ⟨_, _, rfl, by simp [Operation.sendsKey],
      fun c hc => outcome_unkeyed_soft d _ _ _ _ c hc⟩
  case delete =>
    obtain ⟨e, he⟩ := Run.ok_of_returns hargs
    unfold l_delete
    simp only [Run.bind_def, Run.pure_def]
    rw [Run.clientCalls_bind_ok hko, hkc, List.nil_append,
      calls_after_checks _ (fun e => ClientCall.memcached_delete d.mc k (env.toInteger e)) _ e
        (Run.clientCalls_of_log_nil (luaL_optnumber_log env _ _)) he]
    exact ⟨_, _, rfl, by simp [Operation.sendsKey],
      fun c hc => outcome_unkeyed_soft d _ _ _ _ c hc⟩
  case touch =>
    obtain ⟨e, he⟩ := Run.ok_of_returns hargs
    unfold l_touch
    simp only [Run.bind_def, Run.pure_def]
    rw [Run.clientCalls_bind_ok hko, hkc, List.nil_append,
      calls_after_checks _ (fun e => ClientCall.memcached_touch d.mc k (env.toInteger e)) _ e
        (Run.clientCalls_of_log_nil (luaL_checknumber_log env _)) he]
    exact ⟨_, _, rfl, by simp [Operation.sendsKey],
      fun c hc => outcome_unkeyed_soft d _ _ _ _ c hc⟩
  case incr =>
    obtain ⟨e, he⟩ := Run.ok_of_returns hargs
    unfold l_incr l_incr_decr
    simp only [Run.bind_def, Run.pure_def]
    rw [Run.clientCalls_bind_ok hko, hkc, List.nil_append,
      calls_after_checks _
        (fun e => ClientCall.incr_decr .memcached_increment d.mc k (env.toInteger e)) _ e
        (Run.clientCalls_of_log_nil (luaL_optnumber_log env _ _)) he]
    exact ⟨_, _, rfl, by simp [Operation.sendsKey, Operation.incrFn],
      fun c hc => outcome_unkeyed_soft d _ _ _ _ c hc⟩
  case decr =>
    obtain ⟨e, he⟩ := Run.ok_of_returns hargs
    unfold l_decr l_incr_decr
    simp only [Run.bind_def, Run.pure_def]
    rw [Run.clientCalls_bind_ok hko, hkc, List.nil_append,
      calls_after_checks _
        (fun e => ClientCall.incr_decr .memcached_decrement d.mc k (env.toInteger e)) _ e
        (Run.clientCalls_of_log_nil (luaL_optnumber_log env _ _)) he]
    exact ⟨_, _, rfl, by simp [Operation.sendsKey, Operation.incrFn],
      fun c hc => outcome_unkeyed_soft d _ _ _ _ c hc⟩
  case set =>
    obtain ⟨ho, value, expiration, flags, hput⟩ :=
      l_put_checked env d L .memcached_set rp.rc hk hargs.1 hargs.2
    unfold l_set
    simp only [Run.bind_def, Run.pure_def]
    rw [Run.clientCalls_bind_ok ho, hput]
    exact ⟨_, _, rfl, by simp [Operation.sendsKey, Operation.storeFn],
      fun c hc => outcome_unkeyed_hard d _ _ _ c hc⟩
  all_goals
    obtain ⟨ho, value, expiration, flags, hput⟩ := l_put_checked env d L _ rp.rc hk hargs.1 hargs.2
    simp only [l_add, l_replace, l_append, l_prepend, Run.bind_def, Run.pure_def]
    rw [Run.clientCalls_bind_ok ho, hput]
    exact ⟨_, _, rfl, by simp [Operation.sendsKey, Operation.storeFn],
      fun c hc => outcome_unkeyed_soft d _ _ _ _ c hc⟩

/-- C4: the key adapter.  For a key at index 2 (a text, or a number taken as
its text): (a) below `MEMCACHED_MAX_KEY` the key itself is used and nothing is
called; (b) at or above the bound with a callable bound, the callable is called
once on the key and the text of what it returns is used; (c) at or above the
bound with no callable the adapter raises "key is too long" with no effect.
Every keyed method fails with the error of the adapter, having made no client
call, when the adapter fails.  When the adapter gives a key, every keyed client
call the method makes carries that key; and when the method returns, or when
its other argument checks pass, the method has made its own client call with
that key on its context, first among its client calls, and no other keyed
call. -/
theorem key_adapter [DecidableEq Num] (env : LuaEnv Num) (d : mc_data) (L : Stack Num)
    (key : String) (hkey : lua_tolstring env (L.at 2) = some key) :
    (key.length < env.MEMCACHED_MAX_KEY → l_key_encode env d L 2 = ⟨[], .ok key⟩) ∧
    (env.MEMCACHED_MAX_KEY ≤ key.length → d.key_encode ≠ 0 →
      ∀ r k', env.call d.key_encode (.string key) = .ok r → lua_tolstring env (some r) = some k' →
        l_key_encode env d L 2 = ⟨[.call d.key_encode (.string key)], .ok k'⟩) ∧
    (env.MEMCACHED_MAX_KEY ≤ key.length → d.key_encode = 0 →
      l_key_encode env d L 2 = ⟨[], .error "key is too long"⟩) ∧
    (∀ op : Operation, op.keyed = true → ∀ rp : Replies Num,
      (∀ lg msg, l_key_encode env d L 2 = ⟨lg, .error msg⟩ →
        perform op env d L rp = ⟨lg, .error msg⟩ ∧
        (perform op env d L rp).clientCalls = []) ∧
      (∀ lg k, l_key_encode env d L 2 = ⟨lg, .ok k⟩ →
        ∀ c ∈ (perform op env d L rp).clientCalls, ∀ k', c.key? = some k' → k' = k) ∧
      (∀ lg k, l_key_encode env d L 2 = ⟨lg, .ok k⟩ →
        ∀ res, (perform op env d L rp).out = .ok res →
        ∃ c rest, (perform op env d L rp).clientCalls = c :: rest ∧
          op.sendsKey d.mc k c = true ∧ ∀ c' ∈ rest, c'.key? = none) ∧
      (∀ lg k, l_key_encode env d L 2 = ⟨lg, .ok k⟩ →
        op.argumentsPass env d L = true →
        ∃ c rest, (perform op env d L rp).clientCalls = c :: rest ∧
          op.sendsKey d.mc k c = true ∧ ∀ c' ∈ rest, c'.key? = none)) := by
  refine ⟨?_, ?_, ?_, ?_⟩
  · intro hlt
    simp [l_key_encode, hkey, luaL_checklstring, Run.bind, Run.ret, Nat.not_le.mpr hlt]
  · intro hge hbound r k' hcall htext
    simp [l_key_encode, hkey, luaL_checklstring, Run.ret, hge, hbound, lua_call, hcall, htext,
      Run.bind]
  · intro hge hnone
    simp [l_key_encode, hkey, luaL_checklstring, Run.bind, Run.ret, hge, hnone, Run.raise]
  · intro op hop rp
    refine ⟨fun lg msg h => ⟨perform_key_error op hop env d L rp h, ?_⟩,
      fun lg k h => perform_keysAre op hop env d L rp h,
      fun lg k h res hres => perform_sends op hop env d L rp h hres,
      fun lg k h hargs => perform_sends_checked op hop env d L rp h hargs⟩
    have hc := l_key_encode_clientCalls env d L 2
    rw [perform_key_error op hop env d L rp h]
    rw [h] at hc
    exact hc

/-- Witness of C4: a key of 251 bytes on the sample handle is rewritten by
registry entry 1 to its first 8 bytes, and `delete` of that key calls
`memcached_delete` with the rewritten key. -/
theorem key_adapter_witness :
    l_key_encode sampleEnv sampleHandle [self, .string sampleLongKey] 2 =
      ⟨[.call 1 (.string sampleLongKey)], .ok "aaaaaaaa"⟩ ∧
    ∃ c rest, (perform .delete sampleEnv sampleHandle [self, .string sampleLongKey]
        sampleReplies).clientCalls = c :: rest ∧
      Operation.sendsKey .delete (some 1) "aaaaaaaa" c = true ∧
      ∀ c' ∈ rest, c'.key? = none := by
  have h := key_adapter sampleEnv sampleHandle [self, .string sampleLongKey] sampleLongKey rfl
  have hk := h.2.1 (Nat.le_of_eq (List.length_replicate 251 'a').symm) (by decide)
    (.string "aaaaaaaa") "aaaaaaaa" rfl rfl
  exact ⟨hk, (h.2.2.2 .delete rfl sampleReplies).2.2.2 _ _ hk rfl⟩

/-- C5 (as amended): when a method has called the client, its results follow
from the result code alone.  Success gives true (the new counter for incr and
decr; for get the decoded payload, or the empty text when there is no payload);
the soft code of the method gives nil alone; any other code gives nil and a
message.  A get with a payload returns the decoded payload whatever the code. -/
theorem result_code_mapping [DecidableEq Num] (op : Operation)
    (hop : op.hasResultCode = true) (env : LuaEnv Num) (d : mc_data) (L : Stack Num)
    (rp : Replies Num) (hcalled : (perform op env d L rp).clientCalls ≠ []) :
    ((op = .get → rp.get.value = none) →
      (perform op env d L rp).out = .ok (some (.values (claimedResults env op rp)))) ∧
    (op = .get → ∀ value, rp.get.value = some value →
      (perform op env d L rp).out =
        (DECODE_VALUE env d rp.get.flags value).out.map fun v => some (.values [v])) := by
  have hk := l_key_encode_clientCalls env d L 2
  have hput := fun f => l_put_cases env d L f rp.rc
  have hopt := fun i dflt => Run.clientCalls_of_log_nil (luaL_optnumber_log env (L.at i) dflt)
  have hchk := fun i => Run.clientCalls_of_log_nil (luaL_checknumber_log env (L.at i))
  have hsoft := fun soft succ => @outcome_out_soft Num d rp.rc soft rp.txt succ
  have hhard := fun succ => @outcome_out_hard Num d rp.rc rp.txt succ
  cases op <;> simp only [Operation.hasResultCode, Bool.false_eq_true] at hop <;>
    simp only [perform, returnValues_out, returnValues_clientCalls, l_set, l_add, l_replace,
      l_append, l_prepend, l_delete, l_touch, l_incr, l_decr, l_incr_decr, l_exist, l_flush,
      Run.bind_def, Run.pure_def] at hcalled ⊢
  case get =>
    unfold l_get at hcalled ⊢
    simp only [Run.bind_def, Run.pure_def] at hcalled ⊢
    obtain ⟨_, -, -, o1⟩ := Run.bind_called hk hcalled
    rw [o1, Run.out_bind_emit]
    refine ⟨fun hnone => ?_, fun _ value hv => ?_⟩
    · simp only [hnone trivial]
      have := @outcome_out_soft Num d rp.get.rc MEMCACHED_NOTFOUND rp.txt [.string ""]
      simp only [this, claimedResults, Operation.softCode, Operation.resultCode,
        Option.some.injEq]
      rfl
    · simp only [hv]
      generalize DECODE_VALUE env d rp.get.flags value = r
      obtain ⟨lg, out⟩ := r
      cases out <;> simp [Run.bind, Run.ret, Except.map]
  case set | flush =>
    refine ⟨fun _ => ?_, fun h => by cases h⟩
    first
      | rw [put_method_out (hput _) hcalled]
      | (obtain ⟨_, -, -, o1⟩ := Run.bind_called (hopt _ _) hcalled
         rw [o1, Run.out_bind_emit])
    simp only [hhard, claimedResults, Operation.softCode, Operation.resultCode, reduceCtorEq,
      if_false]
    rfl
  all_goals
    refine ⟨fun _ => ?_, fun h => by cases h⟩
    first
      | rw [put_method_out (hput _) hcalled]
      | (obtain ⟨_, -, h1, o1⟩ := Run.bind_called hk hcalled
         first
           | (obtain ⟨_, -, -, o2⟩ := Run.bind_called (hopt _ _) h1
              rw [o1, o2, Run.out_bind_emit])
           | (obtain ⟨_, -, -, o2⟩ := Run.bind_called (hchk _) h1
              rw [o1, o2, Run.out_bind_emit])
           | rw [o1, Run.out_bind_emit])
    simp only [hsoft, claimedResults, Operation.softCode, Operation.resultCode,
      Option.some.injEq]
    rfl

/-- Witness of C5 (as amended): `add` answered with DATA_EXISTS returns nil
alone. -/
theorem result_code_mapping_witness :
    (perform .add sampleEnv sampleHandle [self, .string "k", .string "v"]
        ⟨⟨none, 0, .MEMCACHED_SUCCESS⟩, .MEMCACHED_DATA_EXISTS, 0, 0, [], [], sampleText⟩).out =
      .ok (some (.values [.nil])) :=
  (result_code_mapping .add rfl sampleEnv sampleHandle [self, .string "k", .string "v"]
    ⟨⟨none, 0, .MEMCACHED_SUCCESS⟩, .MEMCACHED_DATA_EXISTS, 0, 0, [], [], sampleText⟩
    (by decide)).1 (fun h => by cases h)

/-- Counterexample to C5 as stated: `get` answered with SUCCESS returns the
stored text "a" (the empty text when there is no payload), not true. -/
theorem get_success_counterexample :
    (l_get sampleEnv sampleHandle [self, .string "k"] ⟨some "a", 0, .MEMCACHED_SUCCESS⟩
        sampleText).out = .ok [.string "a"] ∧
    (l_get sampleEnv sampleHandle [self, .string "k"] ⟨none, 0, .MEMCACHED_SUCCESS⟩
        sampleText).out = .ok [.string ""] ∧
    (LuaValue.string "a" : LuaValue Decimal) ≠ .boolean true ∧
    (LuaValue.string "" : LuaValue Decimal) ≠ .boolean true := by
  refine ⟨rfl, rfl, by decide, by decide⟩

/-! ## Release -/

theorem release_released (d : mc_data) (h : d.mc = none) (ev : Release) :
    (release d ev : Run Num _) = ⟨[], .ok (d, ev.laterResults)⟩ := by
  cases ev <;> simp [release, l_close, l_gc, h, Run.ret, Release.laterResults]

theorem lifecycle_released (d : mc_data) (h : d.mc = none) (evs : List Release) :
    (lifecycle d evs : List (Run Num _)) = evs.map fun ev => ⟨[], .ok (d, ev.laterResults)⟩ := by
  induction evs with
  | nil => rfl
  | cons ev evs ih =>
    simp only [lifecycle, List.map_cons, release_released d h ev]
    rw [ih]

/-- C7 (as amended): on an Active handle, the first close or finalizer run
frees the context once and drops each bound callable reference once, leaving
the context NULL; it returns true if it is a close.  Every later close or
finalizer run performs no effect, raises no error and leaves the handle
unchanged; a later close returns false.  So the effects of the whole sequence
are the one free and the one drop per bound reference. -/
theorem release_at_most_once (d : mc_data) (c : Nat) (hactive : d.mc = some c)
    (ev : Release) (evs : List Release) :
    (lifecycle d (ev :: evs) : List (Run Num _)) =
      ⟨releaseLog d, .ok ({ d with mc := none }, ev.firstResults)⟩ ::
        evs.map (fun later => ⟨[], .ok ({ d with mc := none }, later.laterResults)⟩) ∧
    ((lifecycle d (ev :: evs) : List (Run Num _)).map Run.log).flatten = releaseLog d ∧
    (releaseLog d : List (Effect Num)) =
      .client (.memcached_free (some c)) ::
        ((if d.key_encode ≠ 0 then [.unref d.key_encode] else []) ++
          [.unref d.encode, .unref d.decode]) := by
  have hfirst : (release d ev : Run Num _) =
      ⟨releaseLog d, .ok ({ d with mc := none }, ev.firstResults)⟩ := by
    cases ev <;> by_cases hk : d.key_encode = 0 <;>
      simp [release, l_close, l_gc, l_free, hactive, releaseLog, Run.bind, Run.ret, Run.emit, hk,
        Release.firstResults]
  have hall : (lifecycle d (ev :: evs) : List (Run Num _)) =
      ⟨releaseLog d, .ok ({ d with mc := none }, ev.firstResults)⟩ ::
        evs.map (fun later => ⟨[], .ok ({ d with mc := none }, later.laterResults)⟩) := by
    simp only [lifecycle, hfirst]
    rw [lifecycle_released _ rfl]
  refine ⟨hall, ?_, by simp [releaseLog, hactive]⟩
  rw [hall]
  simp only [List.map_cons, List.map_map, List.flatten_cons]
  have hnil : ∀ l : List Release,
      ((l.map ((Run.log : Run Num (mc_data × List (LuaValue Num)) → _) ∘
        fun later => ⟨[], .ok ({ d with mc := none }, later.laterResults)⟩))).flatten = [] := by
    intro l
    induction l with
    | nil => rfl
    | cons x xs ih => simp
  rw [hnil, List.append_nil]

/-- Witness of C7 (as amended): close, close, finalizer on the sample handle. -/
theorem release_at_most_once_witness :
    ((lifecycle sampleHandle [.close, .close, .gc] : List (Run Decimal _)).map Run.log).flatten =
      releaseLog sampleHandle :=
  (release_at_most_once sampleHandle 1 rfl .close [.close, .gc]).2.1

/-- Counterexample to C7 as stated: when the finalizer ran before it, the first
close returns false; and on a handle with no key-rewrite callable bound
(`key_encode = 0`) the release drops two references, not three. -/
theorem first_close_after_finalizer_counterexample :
    (lifecycle sampleHandle [.gc, .close] : List (Run Decimal _)).map Run.out =
      [.ok ({ sampleHandle with mc := none }, []),
       .ok ({ sampleHandle with mc := none }, [.boolean false])] ∧
    (l_close ⟨some 1, 0, 2, 3⟩ : Run Decimal _).log =
      [.client (.memcached_free (some 1)), .unref 2, .unref 3] := by
  exact ⟨rfl, rfl⟩

/-! ## Multi-get -/

section MultiGet

theorem find_filter_ne (t : LuaTable Num) (k k' : String) (h : k' ≠ k) :
    (t.filter (fun e => e.1 ≠ k)).find? (fun e => e.1 = k') = t.find? (fun e => e.1 = k') := by
  rw [List.find?_filter]
  congr 1
  funext e
  by_cases he : e.1 = k'
  · have : e.1 ≠ k := fun h' => h (he.symm.trans h')
    simp [he, h]
  · simp [he]

theorem find_filter_self (t : LuaTable Num) (k : String) :
    (t.filter (fun e => e.1 ≠ k)).find? (fun e => e.1 = k) = none := by
  rw [List.find?_filter, List.find?_eq_none]
  intro e _
  by_cases he : e.1 = k <;> simp [he]

/-- In a table without nil values the keys are the strings that read as
non-nil. -/
theorem mem_keys_iff (t : LuaTable Num) (ht : ∀ e ∈ t, e.2 ≠ .nil) (k : String) :
    k ∈ t.map Prod.fst ↔ lua_rawget t k ≠ .nil := by
  unfold lua_rawget
  constructor
  · intro hk
    cases hf : t.find? (fun e => e.1 = k) with
    | none =>
      exfalso
      obtain ⟨e, he, hek⟩ := List.mem_map.mp hk
      have := List.find?_eq_none.mp hf e he
      simp [hek] at this
    | some e => exact ht e (List.mem_of_find?_eq_some hf)
  · intro hne
    cases hf : t.find? (fun e => e.1 = k) with
    | none => simp [hf] at hne
    | some e =>
      have h1 := List.find?_some hf
      have h2 := List.mem_of_find?_eq_some hf
      exact List.mem_map.mpr ⟨e, h2, by simpa using h1⟩

/-- The keys of the last-value function: nil for a key that no pair carries. -/
theorem lastValue_of_not_mem (kvs : List (String × LuaValue Num)) (k : String)
    (hk : k ∉ kvs.map Prod.fst) : lastValue kvs k = .nil := by
  unfold lastValue
  have : kvs.reverse.find? (fun kv => kv.1 = k) = none := by
    rw [List.find?_eq_none]
    intro e he
    have he2 := List.mem_reverse.mp he
    have : e.1 ≠ k := fun h => hk (List.mem_map.mpr ⟨e, he2, h⟩)
    simp [this]
  rw [this]

/-- The later pair wins: after the last pair with key `k` no other value is
read under `k`. -/
theorem lastValue_append (kvs₁ kvs₂ : List (String × LuaValue Num)) (k : String)
    (v : LuaValue Num) (hk : k ∉ kvs₂.map Prod.fst) :
    lastValue (kvs₁ ++ (k, v) :: kvs₂) k = v := by
  unfold lastValue
  rw [List.reverse_append, List.reverse_cons, List.find?_append, List.find?_append]
  have : kvs₂.reverse.find? (fun kv => kv.1 = k) = none := by
    rw [List.find?_eq_none]
    intro e he
    have he2 := List.mem_reverse.mp he
    have : e.1 ≠ k := fun h => hk (List.mem_map.mpr ⟨e, he2, h⟩)
    simp [this]
  rw [this]
  simp

theorem zip_keys (pre : List FetchReply) (vals : List (LuaValue Num))
    (env : LuaEnv Num) (d : mc_data)
    (hdec : List.Forall₂ (fun r v => entryValue env d r = .ok v) pre vals) :
    ((pre.map fun r => r.key).zip vals).map Prod.fst = pre.map fun r => r.key := by
  apply List.map_fst_zip
  rw [List.length_map, hdec.length_eq]

variable [DecidableEq Num]

/-- Reading after storing: the stored value under the stored key, the old
value under any other. -/
theorem lua_rawget_rawset (t : LuaTable Num) (k k' : String) (v : LuaValue Num) :
    lua_rawget (lua_rawset t k v) k' = if k' = k then v else lua_rawget t k' := by
  unfold lua_rawget lua_rawset
  by_cases hk : k' = k
  · subst hk
    by_cases hv : v = .nil
    · rw [if_pos hv, find_filter_self, if_pos rfl, hv]
    · rw [if_neg hv, if_pos rfl, List.find?_cons]
      simp
  · have hk2 : ¬ k = k' := fun h => hk h.symm
    by_cases hv : v = .nil
    · rw [if_pos hv, if_neg hk, find_filter_ne t k k' hk]
    · rw [if_neg hv, if_neg hk, List.find?_cons]
      simp only [hk2, decide_False]
      rw [find_filter_ne t k k' hk]

theorem storeAll_append (t : LuaTable Num) (kvs : List (String × LuaValue Num))
    (kv : String × LuaValue Num) :
    storeAll t (kvs ++ [kv]) = lua_rawset (storeAll t kvs) kv.1 kv.2 := by
  simp [storeAll, List.foldl_append]

/-- Reading the table after a sequence of stores gives the last value stored
under the key. -/
theorem lua_rawget_storeAll (kvs : List (String × LuaValue Num)) (k : String) :
    lua_rawget (storeAll [] kvs) k = lastValue kvs k := by
  induction kvs using List.reverseRecOn with
  | nil => rfl
  | append_singleton kvs kv ih =>
    rw [storeAll_append, lua_rawget_rawset, ih]
    unfold lastValue
    rw [List.reverse_append, List.reverse_singleton, List.singleton_append, List.find?_cons]
    by_cases hk : k = kv.1
    · subst hk
      simp
    · have hk2 : ¬ kv.1 = k := fun h => hk h.symm
      simp [hk, hk2]

theorem lua_rawset_noNil (t : LuaTable Num) (k : String) (v : LuaValue Num)
    (ht : ∀ e ∈ t, e.2 ≠ .nil) : ∀ e ∈ lua_rawset t k v, e.2 ≠ .nil := by
  intro e he
  unfold lua_rawset at he
  split at he
  · exact ht e (List.mem_filter.mp he).1
  · rename_i hv
    rcases List.mem_cons.mp he with h | h
    · subst h
      exact hv
    · exact ht e (List.mem_filter.mp h).1

theorem storeAll_noNil (kvs : List (String × LuaValue Num)) :
    ∀ e ∈ storeAll ([] : LuaTable Num) kvs, e.2 ≠ .nil := by
  induction kvs using List.reverseRecOn with
  | nil =>
    intro e he
    cases he
  | append_singleton kvs kv ih =>
    rw [storeAll_append]
    exact lua_rawset_noNil _ _ _ ih

/-- The drain up to the first answer whose code is not SUCCESS: the table of
the entries before it, one fetch call per answer read. -/
theorem fetch_loop_spec (env : LuaEnv Num) (d : mc_data) (stop : FetchReply)
    (rest : List FetchReply) (hstop : stop.rc ≠ MEMCACHED_SUCCESS) :
    ∀ (pre : List FetchReply) (vals : List (LuaValue Num)) (t : LuaTable Num),
      List.Forall₂ (fun r v => entryValue env d r = .ok v) pre vals →
      (∀ r ∈ pre, r.rc = MEMCACHED_SUCCESS) →
      (fetch_loop env d (pre ++ stop :: rest) t).out =
          .ok (some (storeAll t ((pre.map fun r => r.key).zip vals))) ∧
        (fetch_loop env d (pre ++ stop :: rest) t).clientCalls =
          List.replicate (pre.length + 1) (.memcached_fetch d.mc) := by
  intro pre
  induction pre with
  | nil =>
    intro vals t hdec _
    cases hdec
    simp [fetch_loop, hstop, Run.bind, Run.emit, Run.ret, storeAll, Run.clientCalls]
  | cons r rs ih =>
    intro vals t hdec hpre
    cases hdec with
    | cons hv hvs =>
      rename_i v vs
      have hr : r.rc = MEMCACHED_SUCCESS := hpre r (List.mem_cons_self _ _)
      obtain ⟨ih1, ih2⟩ := ih vs (lua_rawset t r.key v) hvs
        (fun x hx => hpre x (List.mem_cons_of_mem _ hx))
      have hm : ∃ lg, (match r.value with
          | some value => DECODE_VALUE env d r.flags value
          | none => Run.ret (.string "")) = ⟨lg, .ok v⟩ ∧
          (⟨lg, .ok v⟩ : Run Num (LuaValue Num)).clientCalls = [] := by
        unfold entryValue at hv
        cases hval : r.value with
        | none =>
          rw [hval] at hv
          simp only at hv
          cases hv
          exact ⟨[], rfl, rfl⟩
        | some value =>
          rw [hval] at hv
          simp only at hv
          have hc := DECODE_VALUE_clientCalls env d r.flags value
          show ∃ lg, DECODE_VALUE env d r.flags value = ⟨lg, .ok v⟩ ∧ _
          generalize DECODE_VALUE env d r.flags value = m at hv hc
          obtain ⟨lg, out⟩ := m
          simp only at hv
          subst hv
          exact ⟨lg, rfl, hc⟩
      obtain ⟨lg, hm1, hm2⟩ := hm
      simp only [List.cons_append, fetch_loop, hr, ne_eq, not_true_eq_false, if_false, hm1]
      constructor
      · rw [Run.out_bind_emit, Run.bind_ok]
        simpa [storeAll] using ih1
      · rw [Run.clientCalls_bind, Run.bind_ok]
        simp only [Run.emit, Run.clientCalls] at hm2 ⊢
        simp only [List.filterMap_append, hm2, List.nil_append]
        simp only [Run.clientCalls] at ih2
        simp [ih2, List.replicate_succ]

/-- Multi-get after a successful batched issue, up to the first answer of the
cursor whose code is not SUCCESS. -/
theorem l_get_multi_drained (env : LuaEnv Num) (d : mc_data) (L : Stack Num) (ref : Nat)
    (arr : List (LuaValue Num)) (pre : List FetchReply) (stop : FetchReply)
    (rest : List FetchReply) (vals : List (LuaValue Num)) (txt : ErrText)
    (hL : L.at 2 = some (.table ref)) (hlen : L.length = 2) (hpre : ∀ r ∈ pre, r.rc = MEMCACHED_SUCCESS)
    (hstop : stop.rc ≠ MEMCACHED_SUCCESS)
    (hdec : List.Forall₂ (fun r v => entryValue env d r = .ok v) pre vals) :
    (l_get_multi env d L arr MEMCACHED_SUCCESS (pre ++ stop :: rest) txt).out =
        .ok (some (.table (storeAll [] ((pre.map fun r => r.key).zip vals)))) ∧
      (l_get_multi env d L arr MEMCACHED_SUCCESS (pre ++ stop :: rest) txt).clientCalls =
        .memcached_mget d.mc (arr.map fun v => lua_tolstring env (some v)) ::
          List.replicate (pre.length + 1) (.memcached_fetch d.mc) := by
  obtain ⟨h1, h2⟩ := fetch_loop_spec env d stop rest hstop pre vals [] hdec hpre
  simp only [l_get_multi, hL, hlen, Run.bind_def, Run.pure_def, ne_eq, not_true_eq_false,
    if_false]
  generalize fetch_loop env d (pre ++ stop :: rest) [] = m at h1 h2 ⊢
  obtain ⟨lg, out⟩ := m
  simp only at h1
  subst h1
  simp only [Run.clientCalls] at h2
  simp [Run.bind, Run.emit, Run.ret, Run.clientCalls, h2]

/-- C10 (as amended): once the batched issue has succeeded, the first answer of
the cursor whose code is not SUCCESS ends the drain, whatever the code and
whatever would follow: with a decode callable that raises no error on the
entries before it,
multi-get returns one result, the table of those entries, and calls the client
for nothing but the issue and one fetch per answer read (no error message is
asked for).  Of several entries with one key the last one is read from the
table. -/
theorem get_multi_drain_no_error (env : LuaEnv Num) (d : mc_data) (L : Stack Num) (ref : Nat)
    (arr : List (LuaValue Num)) (pre : List FetchReply) (stop : FetchReply)
    (rest : List FetchReply) (vals : List (LuaValue Num)) (txt : ErrText)
    (hL : L.at 2 = some (.table ref)) (hlen : L.length = 2) (hpre : ∀ r ∈ pre, r.rc = MEMCACHED_SUCCESS)
    (hstop : stop.rc ≠ MEMCACHED_SUCCESS)
    (hdec : List.Forall₂ (fun r v => entryValue env d r = .ok v) pre vals) :
    (l_get_multi env d L arr MEMCACHED_SUCCESS (pre ++ stop :: rest) txt).out =
        .ok (some (.table (storeAll [] ((pre.map fun r => r.key).zip vals)))) ∧
      (l_get_multi env d L arr MEMCACHED_SUCCESS (pre ++ stop :: rest) txt).clientCalls =
        .memcached_mget d.mc (arr.map fun v => lua_tolstring env (some v)) ::
          List.replicate (pre.length + 1) (.memcached_fetch d.mc) ∧
      (∀ kvs₁ k v kvs₂, (pre.map fun r => r.key).zip vals = kvs₁ ++ (k, v) :: kvs₂ →
        k ∉ kvs₂.map Prod.fst →
        lua_rawget (storeAll [] ((pre.map fun r => r.key).zip vals)) k = v) := by
  obtain ⟨h1, h2⟩ := l_get_multi_drained env d L ref arr pre stop rest vals txt hL hlen hpre hstop hdec
  refine ⟨h1, h2, fun kvs₁ k v kvs₂ hsplit hk => ?_⟩
  rw [lua_rawget_storeAll, hsplit]
  exact lastValue_append kvs₁ kvs₂ k v hk

/-- Witness of C10 (as amended): the key "k" yielded twice, then a hard error
code; the table holds the later value. -/
theorem get_multi_drain_no_error_witness :
    (l_get_multi sampleEnv sampleHandle [self, .table 9] [.string "k"] .MEMCACHED_SUCCESS
        (sampleTwice ++ ⟨"", none, 0, .OTHER 11⟩ :: [⟨"j", some "b", 0, .MEMCACHED_SUCCESS⟩])
        sampleText).out =
      .ok (some (.table (storeAll []
        ((sampleTwice.map fun r => r.key).zip [.string "a", .boolean true])))) :=
  (get_multi_drain_no_error sampleEnv sampleHandle [self, .table 9] 9 [.string "k"]
    sampleTwice ⟨"", none, 0, .OTHER 11⟩ [⟨"j", some "b", 0, .MEMCACHED_SUCCESS⟩]
    [.string "a", .boolean true] sampleText rfl rfl (by decide) (by decide)
    (List.Forall₂.cons rfl (List.Forall₂.cons rfl List.Forall₂.nil))).1

/-- Counterexample to C10 as stated: the cursor yields a STRUCTURED payload on
which the decode callable (registry entry 5) raises an error; multi-get raises
that error in the drain and returns no table. -/
theorem get_multi_decode_error_counterexample :
    (l_get_multi sampleEnv ⟨some 1, 1, 2, 5⟩ [self, .table 9] [.string "k"] .MEMCACHED_SUCCESS
        [⟨"k", some "x", FLAG_ENCODED, .MEMCACHED_SUCCESS⟩, ⟨"", none, 0, .MEMCACHED_END⟩]
        sampleText).out = .error "decode failed" := by
  rfl

/-- C6 (as amended): after a successful batched issue and a cursor that yields
entries and then reports exhaustion, with a decode callable that raises no
error on them, multi-get returns one table.  Its keys are exactly the yielded
keys whose last value is not nil; each reads as the last value yielded for it,
the decoded payload or the empty text when there is no payload; a key the
cursor never yielded has no entry.  When the batched issue reports a code other
than SUCCESS the results are nil and a message, and no table. -/
theorem get_multi_complete (env : LuaEnv Num) (d : mc_data) (L : Stack Num) (ref : Nat)
    (arr : List (LuaValue Num)) (pre : List FetchReply) (stop : FetchReply)
    (rest : List FetchReply) (vals : List (LuaValue Num)) (txt : ErrText)
    (hL : L.at 2 = some (.table ref)) (hlen : L.length = 2) (hpre : ∀ r ∈ pre, r.rc = MEMCACHED_SUCCESS)
    (hstop : stop.rc = MEMCACHED_END)
    (hdec : List.Forall₂ (fun r v => entryValue env d r = .ok v) pre vals) :
    (∃ t, (l_get_multi env d L arr MEMCACHED_SUCCESS (pre ++ stop :: rest) txt).out =
          .ok (some (.table t)) ∧
        (∀ k, k ∈ t.map Prod.fst ↔
          k ∈ (pre.map fun r => r.key) ∧
            lastValue ((pre.map fun r => r.key).zip vals) k ≠ .nil) ∧
        (∀ k, lua_rawget t k = lastValue ((pre.map fun r => r.key).zip vals) k) ∧
        (∀ k, k ∉ (pre.map fun r => r.key) → k ∉ t.map Prod.fst)) ∧
      (∀ r ∈ pre, r.value = none → entryValue env d r = .ok (.string "")) ∧
      (∀ rc cursor, rc ≠ MEMCACHED_SUCCESS →
        (l_get_multi env d L arr rc cursor txt).out =
          .ok (some (.values [.nil,
            .string (if rc = MEMCACHED_ERRNO then txt.strerror else txt.last_error)]))) := by
  have hstop2 : stop.rc ≠ MEMCACHED_SUCCESS := by
    rw [hstop]
    decide
  obtain ⟨h1, -⟩ :=
    l_get_multi_drained env d L ref arr pre stop rest vals txt hL hlen hpre hstop2 hdec
  have hkeys : ∀ k, k ∈ (storeAll [] ((pre.map fun r => r.key).zip vals)).map Prod.fst ↔
      k ∈ (pre.map fun r => r.key) ∧
        lastValue ((pre.map fun r => r.key).zip vals) k ≠ .nil := by
    intro k
    rw [mem_keys_iff _ (storeAll_noNil _), lua_rawget_storeAll]
    constructor
    · intro hne
      refine ⟨?_, hne⟩
      by_contra hk
      rw [← zip_keys pre vals env d hdec] at hk
      exact hne (lastValue_of_not_mem _ k hk)
    · exact fun h => h.2
  refine ⟨⟨_, h1, hkeys, fun k => lua_rawget_storeAll _ k, fun k hk hmem => ?_⟩, ?_, ?_⟩
  · exact hk ((hkeys k).mp hmem).1
  · intro r _ hnone
    simp [entryValue, hnone]
  · intro rc cursor hrc
    have he := @l_error_out Num d rc txt
    simp only [l_get_multi, hL, hlen, Run.bind_def, Run.pure_def, ne_eq, hrc, not_false_eq_true,
      if_true, not_true_eq_false, if_false]
    rw [Run.out_bind_emit]
    generalize (l_error d rc txt : Run Num _) = m at he ⊢
    obtain ⟨lg, out⟩ := m
    simp only at he
    subst he
    simp [Run.bind, Run.ret]

/-- Witness of C6 (as amended): K1 is yielded with the payload "a" and K3 with
no payload; K2, which was also asked for, is not yielded. -/
theorem get_multi_complete_witness :
    ∃ t, (l_get_multi sampleEnv sampleHandle [self, .table 9]
          [.string "K1", .string "K2", .string "K3"] .MEMCACHED_SUCCESS
          (sampleHits ++ ⟨"", none, 0, .MEMCACHED_END⟩ :: []) sampleText).out =
        .ok (some (.table t)) ∧
      (∀ k, k ∈ t.map Prod.fst ↔
        k ∈ (sampleHits.map fun r => r.key) ∧
          lastValue ((sampleHits.map fun r => r.key).zip sampleHitValues) k ≠ .nil) ∧
      (∀ k, lua_rawget t k = lastValue ((sampleHits.map fun r => r.key).zip sampleHitValues) k) ∧
      (∀ k, k ∉ (sampleHits.map fun r => r.key) → k ∉ t.map Prod.fst) :=
  (get_multi_complete sampleEnv sampleHandle [self, .table 9] 9
    [.string "K1", .string "K2", .string "K3"] sampleHits ⟨"", none, 0, .MEMCACHED_END⟩ []
    sampleHitValues sampleText rfl rfl (by decide) rfl
    (List.Forall₂.cons rfl (List.Forall₂.cons rfl List.Forall₂.nil))).1

/-- Counterexample to C6 as stated: the cursor yields the key "k" with a
STRUCTURED payload, the decode callable (registry entry 4) returns nil for it,
and the table returned has no key at all; with a decode callable that raises
an error (registry entry 5) no table is returned. -/
theorem get_multi_nil_value_counterexample :
    (l_get_multi sampleEnv ⟨some 1, 1, 2, 4⟩ [self, .table 9] [.string "k"] .MEMCACHED_SUCCESS
        [⟨"k", some "x", FLAG_ENCODED, .MEMCACHED_SUCCESS⟩, ⟨"", none, 0, .MEMCACHED_END⟩]
        sampleText).out = .ok (some (.table [])) ∧
    entryValue sampleEnv ⟨some 1, 1, 2, 4⟩ ⟨"k", some "x", FLAG_ENCODED, .MEMCACHED_SUCCESS⟩ =
      .ok .nil ∧
    (l_get_multi sampleEnv ⟨some 1, 1, 2, 5⟩ [self, .table 9] [.string "k"] .MEMCACHED_SUCCESS
        [⟨"k", some "x", FLAG_ENCODED, .MEMCACHED_SUCCESS⟩, ⟨"", none, 0, .MEMCACHED_END⟩]
        sampleText).out = .error "decode failed" := by
  refine ⟨rfl, rfl, rfl⟩

end MultiGet

end LuaMemcached
